import Mathlib

/-!
# Verification of the CIBIL report extractor

Shallow embedding of `src/cibil/services/extractor.py` and proofs about it.

Conventions of the embedding:
* Python strings are Lean `String`s (lists of unicode scalar values, as in
  Python 3); character classes are modelled by explicit code-point tests on
  `Char.toNat`, matching Python `re` semantics for the ASCII texts the
  extractor handles (`\w`, `\s`, `str.upper`, `str.strip`, `str.isdigit`).
* The two module-level token patterns `DPD_TOKEN_RE = \b(?:000|XXX|STD|-|\d{3})\b`
  (case-insensitive) and the month-stamp pattern `\b(\d{2}-\d{2})\b` are modelled
  by character-level scanners (`dpdFindall`, `monthFindall`) implementing
  `re.findall`: left-to-right scan, non-overlapping matches, with the
  word-boundary `\b` checks of the source patterns.  In particular a standalone
  `-` surrounded by spaces does not match `\b-\b` (both neighbours of the `-`
  must be word characters), exactly as in Python.
* Python `dict`s (insertion ordered, unique keys) are association lists
  `List (String × _)`; `dict[k] = v` is an order-preserving upsert.
* Python `float` arithmetic on the small averages computed here is modelled by
  exact rationals `ℚ`; `round(x, 1)` is modelled by `pyRound1`
  (round half to even at one decimal digit), which agrees with Python's `round`
  on the decimal values arising in these computations (binary floating-point
  representation error is abstracted away).
* Fallible operations (`int(...)`, date lookups) return `Option`.
-/

/-- Python regex `\w` (word character) for the ASCII report texts:
digits, latin letters, or underscore. -/
def chWord (c : Char) : Bool :=
  decide ((48 ≤ c.toNat ∧ c.toNat ≤ 57) ∨ (65 ≤ c.toNat ∧ c.toNat ≤ 90) ∨
    (97 ≤ c.toNat ∧ c.toNat ≤ 122) ∨ c.toNat = 95)

/-- Python `str.isdigit` / regex `\d` for ASCII digits `0`-`9`. -/
def chDigit (c : Char) : Bool := decide (48 ≤ c.toNat ∧ c.toNat ≤ 57)

/-- ASCII lowercase letter `a`-`z`. -/
def chLowerAlpha (c : Char) : Bool := decide (97 ≤ c.toNat ∧ c.toNat ≤ 122)

/-- ASCII uppercase letter `A`-`Z`. -/
def chUpperAlpha (c : Char) : Bool := decide (65 ≤ c.toNat ∧ c.toNat ≤ 90)

/-- ASCII letter. -/
def chAlpha (c : Char) : Bool := chUpperAlpha c || chLowerAlpha c

/-- Python regex `\s` / `str.strip` whitespace (ASCII): space, tab, newline,
carriage return, vertical tab, form feed. -/
def chSpace (c : Char) : Bool :=
  decide (c.toNat = 32 ∨ c.toNat = 9 ∨ c.toNat = 10 ∨ c.toNat = 13 ∨
    c.toNat = 11 ∨ c.toNat = 12)

/-- Python `str.upper` on one character (ASCII range; other code points such as
`₹` are unchanged, as in Python for these inputs). -/
def upChar (c : Char) : Char :=
  if chLowerAlpha c then Char.ofNat (c.toNat - 32) else c

/-- Python `str.lower` on one character (ASCII range). -/
def lowChar (c : Char) : Char :=
  if chUpperAlpha c then Char.ofNat (c.toNat + 32) else c

/-- Python `str.upper`. -/
def strUpper (s : String) : String := ⟨s.data.map upChar⟩

/-- Python `str.lower`. -/
def strLower (s : String) : String := ⟨s.data.map lowChar⟩

/-- Python `str.strip()`: drop leading and trailing whitespace. -/
def pyStrip (s : String) : String :=
  ⟨((s.data.dropWhile chSpace).reverse.dropWhile chSpace).reverse⟩

/-- Decimal value of a digit string (most significant first). -/
def digitsToNat (l : List Char) : Nat :=
  l.foldl (fun n c => 10 * n + (c.toNat - 48)) 0

/-- Nonempty all-digit parse used by `pyIntOpt`. -/
def digitsOpt (l : List Char) : Option Nat :=
  if l ≠ [] ∧ l.all chDigit then some (digitsToNat l) else none

/-- Python `int(s)` on an already-stripped string: optional sign followed by
digits; `none` models the `ValueError` path.  (Underscore digit grouping,
accepted by Python but never produced by the extractor's patterns, is not
modelled.) -/
def pyIntOpt (s : String) : Option Int :=
  match s.data with
  | [] => none
  | c :: rest =>
    if c = '-' then (digitsOpt rest).map (fun n => -(n : Int))
    else if c = '+' then (digitsOpt rest).map (fun n => (n : Int))
    else (digitsOpt (c :: rest)).map (fun n => (n : Int))

/-- Regex `\b` before a match starting with a word character: the previous
character, if any, must not be a word character. -/
def boundaryBeforeWord (prev : Option Char) : Bool :=
  match prev with
  | none => true
  | some c => !chWord c

/-- Regex `\b` after a match ending with a word character: the next character,
if any, must not be a word character. -/
def boundaryAfterWord (rest : List Char) : Bool :=
  match rest with
  | [] => true
  | c :: _ => !chWord c

/-- The three-character alternatives of `DPD_TOKEN_RE` (`000`, `XXX`, `STD`
case-insensitively, or any three digits), returning the matched text. -/
def threeCharTok (a b c : Char) : Option String :=
  if chDigit a && chDigit b && chDigit c then some ⟨[a, b, c]⟩
  else if upChar a == 'X' && upChar b == 'X' && upChar c == 'X' then some ⟨[a, b, c]⟩
  else if upChar a == 'S' && upChar b == 'T' && upChar c == 'D' then some ⟨[a, b, c]⟩
  else none

/-- `re.findall` for `DPD_TOKEN_RE = \b(?:000|XXX|STD|-|\d{3})\b` (re.I):
left-to-right scan carrying the previous character for the leading `\b` test.
A `-` matches only between two word characters (`\b-\b`); a three-character
alternative needs a non-word (or absent) character on both sides. -/
def dpdFindallAux : Option Char → List Char → List String
  | prev, '-' :: rest =>
    (match prev, rest with
     | some p, c :: _ =>
       if chWord p && chWord c then "-" :: dpdFindallAux (some '-') rest
       else dpdFindallAux (some '-') rest
     | _, _ => dpdFindallAux (some '-') rest)
  | prev, a :: b :: c :: rest =>
    (match threeCharTok a b c with
     | some tok =>
       if boundaryBeforeWord prev && boundaryAfterWord rest then
         tok :: dpdFindallAux (some c) rest
       else dpdFindallAux (some a) (b :: c :: rest)
     | none => dpdFindallAux (some a) (b :: c :: rest))
  | _, [a] => (match a with | _ => [])
  | _, [a, b] => (match a, b with | _, _ => [])
  | _, [] => []

/-- `DPD_TOKEN_RE.findall(text)`. -/
def dpdFindall (l : List Char) : List String := dpdFindallAux none l

/-- `re.findall` for the month-stamp pattern `\b(\d{2}-\d{2})\b`. -/
def monthFindallAux : Option Char → List Char → List String
  | prev, a :: b :: '-' :: c :: d :: rest =>
    if chDigit a && chDigit b && chDigit c && chDigit d &&
        boundaryBeforeWord prev && boundaryAfterWord rest then
      (⟨[a, b, '-', c, d]⟩ : String) :: monthFindallAux (some d) rest
    else monthFindallAux (some a) (b :: '-' :: c :: d :: rest)
  | _, a :: rest => monthFindallAux (some a) rest
  | _, [] => []

/-- `re.findall(r'\b(\d{2}-\d{2})\b', text)`. -/
def monthFindall (l : List Char) : List String := monthFindallAux none l

/-- `CLEAN_STATES = {"000", "XXX", "-", "STD"}` (the set literal of
`_get_deterioration_reasoning`, also inlined in `_default_month_for_year`). -/
def cleanStates : List String := ["000", "XXX", "-", "STD"]

/-- `CIBILExtractor._dpd_to_number`: clean sentinels map to 0, any other token
to `int(token)`, with the `ValueError` path mapping to 0. -/
def dpdToNumber (status : String) : Int :=
  let s := strUpper (pyStrip status)
  if s = "STD" ∨ s = "000" ∨ s = "XXX" ∨ s = "-" then 0
  else (pyIntOpt s).getD 0

/-- The clean-token test applied by `_get_deterioration_reasoning` and
`_default_month_for_year`: uppercase the token, then member of `CLEAN_STATES`. -/
def isCleanTok (t : String) : Bool := decide (strUpper t ∈ cleanStates)

/-- The token vocabulary recognised by `DPD_TOKEN_RE`: one of the clean
sentinels (case-insensitively) or any 3-digit string. -/
def isValidDpdToken (t : String) : Prop :=
  strUpper t ∈ cleanStates ∨ (t.length = 3 ∧ ∀ c ∈ t.data, chDigit c = true)

/-- A DPD history: Python dict from year label to the year's token string
(`' '.join`-ed tokens), as an insertion-ordered association list. -/
def DpdHist := List (String × String)

/-- `dict[k]` lookup (first entry with the key; histories have unique keys). -/
def hGet (h : List (String × String)) (k : String) : Option String :=
  (h.find? (fun p => decide (p.1 = k))).map Prod.snd

/-- Python `<` on strings, on the underlying code-point lists: lexicographic
comparison by unicode code point. -/
def charListLt : List Char → List Char → Bool
  | [], [] => false
  | [], _ :: _ => true
  | _ :: _, [] => false
  | a :: as, b :: bs =>
    if a.toNat < b.toNat then true
    else if b.toNat < a.toNat then false
    else charListLt as bs

/-- Python `s < t` for strings. -/
def strLtB (a b : String) : Bool := charListLt a.data b.data

/-- Python `s <= t` for strings. -/
def strLeB (a b : String) : Bool := !strLtB b a

/-- Stable ascending insertion of a string into a sorted list (helper for
`sortStrings`). -/
def insSorted (x : String) : List String → List String
  | [] => [x]
  | y :: ys => if strLtB y x then y :: insSorted x ys else x :: y :: ys

/-- Python `sorted` on a list of strings: ascending lexicographic order on
code points. -/
def sortStrings (l : List String) : List String := l.foldr insSorted []

/-- The `COMPLETELY_DIRTY` reasoning string of rule 1. -/
def completelyDirtyMsg (n : Nat) (year : String) : String :=
  "COMPLETELY_DIRTY: " ++ toString n ++ " dirty tokens in " ++ year

/-- The transition reasoning string of rule 2 (direction chosen by whether the
second token of the pair is clean). -/
def transitionMsg (p c year : String) : String :=
  (if decide (c ∈ cleanStates) = false then "CLEAN_TO_DIRTY" else "DIRTY_TO_CLEAN")
    ++ ": \x27" ++ p ++ "\x27→\x27" ++ c ++ "\x27 in " ++ year

/-- The `EXPLICIT_DIRTY` reasoning string of rule 3. -/
def explicitDirtyMsg (d year : String) : String :=
  "EXPLICIT_DIRTY: \x27" ++ d ++ "\x27 in " ++ year

/-- Rule 2's scan over adjacent pairs: the first pair whose clean/dirty
classification differs. -/
def firstCleanDirtyTransition : List String → Option (String × String)
  | a :: b :: rest =>
    if decide (a ∈ cleanStates) ≠ decide (b ∈ cleanStates) then some (a, b)
    else firstCleanDirtyTransition (b :: rest)
  | _ => none

/-- Rule 3's loop over the fixed dirty codes `['015', '032', '046']`. -/
def findExplicitDirty (vals : List String) : List String → Option String
  | [] => none
  | d :: ds => if d ∈ vals then some d else findExplicitDirty vals ds

/-- One loop iteration of `_get_deterioration_reasoning` for one year:
`none` models `continue` (empty string or no tokens), `some r` models
`return r`. -/
def deteriorationForYear (year dpdString : String) : Option String :=
  if dpdString = "" then none
  else
    let vals := (dpdFindall dpdString.data).map strUpper
    if vals = [] then none
    else
      if vals.any (fun t => decide (t ∈ cleanStates)) = false ∧ 0 < vals.length then
        some (completelyDirtyMsg vals.length year)
      else
        match firstCleanDirtyTransition vals with
        | some pc => some (transitionMsg pc.1 pc.2 year)
        | none =>
          match findExplicitDirty vals ["015", "032", "046"] with
          | some d => some (explicitDirtyMsg d year)
          | none => none

/-- The year loop of `_get_deterioration_reasoning`: first year (in sorted
order) whose iteration returns wins. -/
def getDetAux (h : List (String × String)) : List String → String
  | [] => ""
  | y :: ys =>
    match deteriorationForYear y ((hGet h y).getD "") with
    | some r => r
    | none => getDetAux h ys

/-- `_get_deterioration_reasoning`. -/
def getDeteriorationReasoning (h : List (String × String)) : String :=
  getDetAux h (sortStrings (h.map Prod.fst))

/-- Claim-side reading of the per-year rules (for the refinement theorem of
the reasoning function): rule 1 as "at least one token and none clean", rule 2
as the first adjacent pair differing in classification (via `zip`/`find?`),
rule 3 as the first fixed dirty code present (via `find?`). -/
def specYearReasoning (year dpdString : String) : Option String :=
  let vals := (dpdFindall dpdString.data).map strUpper
  if vals ≠ [] ∧ ∀ t ∈ vals, t ∉ cleanStates then
    some (completelyDirtyMsg vals.length year)
  else
    match (vals.zip vals.tail).find?
        (fun pc => decide (pc.1 ∈ cleanStates) != decide (pc.2 ∈ cleanStates)) with
    | some pc => some (transitionMsg pc.1 pc.2 year)
    | none =>
      match ["015", "032", "046"].find? (fun d => decide (d ∈ vals)) with
      | some d => some (explicitDirtyMsg d year)
      | none => none

/-- Claim-side year loop. -/
def specDetAux (h : List (String × String)) : List String → String
  | [] => ""
  | y :: ys =>
    match specYearReasoning y ((hGet h y).getD "") with
    | some r => r
    | none => specDetAux h ys

/-- Claim-side reading of the whole reasoning function. -/
def specDetReasoning (h : List (String × String)) : String :=
  specDetAux h (sortStrings (h.map Prod.fst))

/-- Round half to even to an integer (the tie-breaking rule of Python's
`round`). -/
def rhe (q : ℚ) : ℤ :=
  if q - ⌊q⌋ < 1 / 2 then ⌊q⌋
  else if 1 / 2 < q - ⌊q⌋ then ⌊q⌋ + 1
  else if ⌊q⌋ % 2 = 0 then ⌊q⌋ else ⌊q⌋ + 1

/-- Python `round(x, 1)` on the exact rational model: round `10 * x` half to
even and divide back. -/
def pyRound1 (q : ℚ) : ℚ := (rhe (q * 10) : ℚ) / 10

/-- Arithmetic mean of a list of naturals, as a rational. -/
def ratMean (l : List Nat) : ℚ := (l.map (fun n => (n : ℚ))).sum / l.length

/-- The 1-based enumeration loop of `_default_month_for_year`, returning at the
first token outside `CLEAN_STATES`. -/
def firstNonCleanIdx : Nat → List String → Option Nat
  | _, [] => none
  | i, t :: ts => if t ∉ cleanStates then some i else firstNonCleanIdx (i + 1) ts

/-- `_default_month_for_year`: 1-based position of the first non-clean token of
the year's token string, `none` if the year is entirely clean or empty. -/
def defaultMonthForYear (dpdString : String) : Option Nat :=
  firstNonCleanIdx 1 ((dpdFindall dpdString.data).map strUpper)

/-- `_default_month_for_specific_year`: look the year up in the history;
a missing or empty string yields `none`. -/
def defaultMonthForSpecificYear (h : List (String × String)) (year : String) :
    Option Nat :=
  match hGet h year with
  | none => none
  | some s => if s = "" then none else defaultMonthForYear s

/-- `_calculate_default_month_number`: collect the per-year default months over
the history's values (insertion order), then `round(mean, 1)`; `none` when no
year yields a month. -/
def calcDefaultMonthNumber (h : List (String × String)) : Option ℚ :=
  let yearlyDefaults := h.foldl
    (fun acc p =>
      match defaultMonthForYear p.2 with
      | some m => acc ++ [m]
      | none => acc) []
  if yearlyDefaults = [] then none
  else some (pyRound1 (ratMean yearlyDefaults))

/-- `_calculate_dynamic_final_default_month`.  The wall-clock
`datetime.now().year` of the source is taken as the parameter
`currentYearNum`; the previous year is `currentYearNum - 1`.  One pass over
the accounts (each contributing only its `dpd_history`) collects the
current-year default months and the previous-year default months; then the
two-tier policy: at least 5 current-year values → `round(mean(current), 1)`,
otherwise `round(mean(current ++ previous), 1)` when nonempty, else `none`. -/
def calcDynamicFinalDefaultMonth (currentYearNum : Int)
    (accounts : List (List (String × String))) : Option ℚ :=
  let currentYear := toString currentYearNum
  let previousYear := toString (currentYearNum - 1)
  let collected := accounts.foldl
    (fun (acc : List Nat × List Nat) h =>
      let acc1 :=
        match defaultMonthForSpecificYear h currentYear with
        | some v => acc.1 ++ [v]
        | none => acc.1
      let acc2 :=
        match defaultMonthForSpecificYear h previousYear with
        | some v => acc.2 ++ [v]
        | none => acc.2
      (acc1, acc2)) ([], [])
  let currentYearValues := collected.1
  let fallbackValues := collected.2
  if 5 ≤ currentYearValues.length then some (pyRound1 (ratMean currentYearValues))
  else
    let combined := currentYearValues ++ fallbackValues
    if combined ≠ [] then some (pyRound1 (ratMean combined)) else none

/-- Order-preserving append-upsert, the effect of
`dict.setdefault(k, []).append(v)` / `defaultdict(list)[k].append(v)` on an
insertion-ordered dict of lists. -/
def upsApp {β : Type} (acc : List (String × List β)) (k : String) (v : β) :
    List (String × List β) :=
  if acc.any (fun p => decide (p.1 = k)) then
    acc.map (fun p => if p.1 = k then (p.1, p.2 ++ [v]) else p)
  else acc ++ [(k, [v])]

/-- Build an insertion-ordered dict of lists from a stream of (key, value)
pairs. -/
def groupPairs {β : Type} (l : List (String × β)) : List (String × List β) :=
  l.foldl (fun acc p => upsApp acc p.1 p.2) []

/-- Distinct keys in first-occurrence order, skipping keys in `seen` (spec-side
description of the key order of an insertion-ordered dict). -/
def firstDedupFrom (seen : List String) : List String → List String
  | [] => []
  | k :: ks =>
    if k ∈ seen then firstDedupFrom seen ks
    else k :: firstDedupFrom (seen ++ [k]) ks

/-- All values carried by key `k` in a pair stream, in order (spec-side
description of one group of an insertion-ordered dict). -/
def valsFor {β : Type} (k : String) (l : List (String × β)) : List β :=
  l.filterMap (fun p => if p.1 = k then some p.2 else none)

/-- One extracted enquiry record (the dict built by
`_extract_enquiries_from_html` / `extract_enquiries_from_pdf`).  Only
`parsedDate` drives the latest-month filter. -/
structure Enquiry where
  dateRaw : String
  parsedDate : Option String
  memberName : Option String
  purpose : Option String
  amount : String
deriving DecidableEq, Repr

/-- The grouping key of `_filter_latest_month_enquiries`:
`parsed_date[:7]` for enquiries whose `parsed_date` is truthy (non-`None`,
nonempty). -/
def monthKey (e : Enquiry) : Option String :=
  match e.parsedDate with
  | none => none
  | some s => if s = "" then none else some (⟨s.data.take 7⟩ : String)

/-- Python `max` over a nonempty list given as head and tail (first maximal
element wins ties; on the distinct keys here ties cannot occur). -/
def foldlMaxStr (a : String) (l : List String) : String :=
  l.foldl (fun x y => if strLtB x y then y else x) a

/-- The `month_data` dict of `_filter_latest_month_enquiries`: group enquiries
with truthy parsed dates by year-month key, in input order. -/
def groupByMonth (l : List Enquiry) : List (String × List Enquiry) :=
  l.foldl
    (fun acc e =>
      match monthKey e with
      | some k => upsApp acc k e
      | none => acc) []

/-- `_filter_latest_month_enquiries`. -/
def filterLatestMonthEnquiries (l : List Enquiry) : List Enquiry :=
  if l = [] then []
  else
    match groupByMonth l with
    | [] => []
    | g :: gs =>
      let latest := foldlMaxStr g.1 (gs.map Prod.fst)
      (((g :: gs).find? (fun p => decide (p.1 = latest))).map Prod.snd).getD []

/-- Claim-side selected month: the lexicographically maximal year-month key
among the successfully parsed dates. -/
def latestKeyOf (l : List Enquiry) : Option String :=
  match l.filterMap monthKey with
  | [] => none
  | k :: ks => some (foldlMaxStr k ks)

/-- Python `str.split(sep)` for a one-character separator, on the underlying
character list (structural, unlike `String.splitOn`). -/
def splitOnCharAux (sep : Char) : List Char → List Char → List String
  | [], cur => [⟨cur.reverse⟩]
  | c :: rest, cur =>
    if c = sep then (⟨cur.reverse⟩ : String) :: splitOnCharAux sep rest []
    else splitOnCharAux sep rest (c :: cur)

/-- Python `s.split(sep)` with a one-character separator. -/
def splitOnChar (sep : Char) (s : String) : List String := splitOnCharAux sep s.data []

/-- `' '.join`. -/
def joinSp (l : List String) : String := String.intercalate " " l

/-- The year label derived from a `MM-YY` month stamp in
`_extract_dpd_history_pdf`: `mm, yy = month.split('-'); year = f"20{yy}"`. -/
def yearOfMonth (m : String) : String := "20" ++ (splitOnChar '-' m).getD 1 ""

/-- `_extract_dpd_history_pdf`: match delinquency tokens and month stamps as
two flat sequences over the block, pair them positionally
(`enumerate(months[:len(tokens)])` with `tokens[idx]`), group the paired
tokens by the month's year, join each group with spaces; if no tokens →
empty dict; if no pairs were formed → everything under `"UNKNOWN"`. -/
def extractDpdHistoryPdf (dpdBlock : String) : List (String × String) :=
  let tokens := dpdFindall dpdBlock.data
  let months := monthFindall dpdBlock.data
  if tokens = [] then []
  else
    let pairs := ((months.take tokens.length).map yearOfMonth).zip tokens
    let hist := (groupPairs pairs).map (fun p => (p.1, joinSp p.2))
    if hist = [] then [("UNKNOWN", joinSp tokens)] else hist

/-- Claim-side positional pairing of `_extract_dpd_history_pdf`: year of
`months[i]` paired with `tokens[i]`. -/
def specPdfPairs (dpdBlock : String) : List (String × String) :=
  (((monthFindall dpdBlock.data).take (dpdFindall dpdBlock.data).length).map
    yearOfMonth).zip (dpdFindall dpdBlock.data)

/-- Claim-side grouping of the positional pairs: distinct years in first
occurrence order, each with the space-joined tokens attributed to it. -/
def specPdfHist (dpdBlock : String) : List (String × String) :=
  (firstDedupFrom [] ((specPdfPairs dpdBlock).map Prod.fst)).map
    (fun y => (y, joinSp (valsFor y (specPdfPairs dpdBlock))))

/-- The account-retention loop of
`PDFAdvancedExtractor.extract_deteriorating_accounts_pdf`, modelled at the
account level: the line scan yields one DPD history per grid header, in
document order (`histories`); the loop numbers them from 1, stops past
`max_accounts = 200`, and appends an account exactly when its deterioration
reasoning is truthy (nonempty). -/
def pdfRetainAux : Nat → List (List (String × String)) → List (List (String × String))
  | _, [] => []
  | idx, h :: rest =>
    if 200 < idx then []
    else
      (if getDeteriorationReasoning h ≠ "" then [h] else []) ++ pdfRetainAux (idx + 1) rest

/-- PDF path: the deteriorating-accounts list (one entry per retained
account's DPD history). -/
def extractDeterioratingAccountsPdf (histories : List (List (String × String))) :
    List (List (String × String)) :=
  pdfRetainAux 1 histories

/-- `^\s*(\d{4})\s*$` applied to an already-stripped line: exactly four
digits. -/
def isYearLine (l : String) : Bool := l.data.length == 4 && l.data.all chDigit

/-- Order-preserving overwrite-upsert: `dict[k] = v` (later assignment to an
existing year replaces its value, keeping its position). -/
def upsSet (acc : List (String × String)) (k v : String) : List (String × String) :=
  if acc.any (fun p => decide (p.1 = k)) then
    acc.map (fun p => if p.1 = k then (p.1, v) else p)
  else acc ++ [(k, v)]

/-- The line loop of `_extract_dpd_history_improved`: at each 4-digit year
line, gather DPD tokens from the next 12 (non-blank, stripped) lines; store
the joined tokens under the year when any were found. -/
def dpdHistImprovedAux : List String → List (String × String) → List (String × String)
  | [], acc => acc
  | l :: rest, acc =>
    if isYearLine l then
      let toks := ((rest.take 12).map (fun r => dpdFindall r.data)).flatten
      dpdHistImprovedAux rest (if toks ≠ [] then upsSet acc l (joinSp toks) else acc)
    else dpdHistImprovedAux rest acc

/-- `_extract_dpd_history_improved`: split the block into stripped non-blank
lines, then run the year-line loop. -/
def extractDpdHistoryImproved (block : String) : List (String × String) :=
  dpdHistImprovedAux (((splitOnChar '\n' block).map pyStrip).filter (fun s => !(s == ""))) []

/-- The fields of one raw HTML account dict that the retention claims
depend on. -/
structure HtmlAccount where
  originalHtmlIndex : String
  dpdHistory : List (String × String)
  deteriorationReasoning : String
deriving DecidableEq, Repr

/-- Build one raw HTML account from block index `i` (0-based position among
all split blocks, as in `enumerate(account_blocks)`) and the stripped block:
`original_html_index = str(i + 1)`, DPD history and reasoning always
attached. -/
def mkHtmlAccount (i : Nat) (strippedBlock : String) : HtmlAccount :=
  let hist := extractDpdHistoryImproved strippedBlock
  { originalHtmlIndex := toString (i + 1)
    dpdHistory := hist
    deteriorationReasoning := getDeteriorationReasoning hist }

/-- The block loop of `_extract_accounts_from_html`: strip each block, skip
empty or shorter-than-50-character blocks, append an account for every other
block (`accounts.append(account)` is unconditional). -/
def htmlAccAux : Nat → List String → List HtmlAccount
  | _, [] => []
  | i, b :: bs =>
    let s := pyStrip b
    if s = "" ∨ s.data.length < 50 then htmlAccAux (i + 1) bs
    else mkHtmlAccount i s :: htmlAccAux (i + 1) bs

/-- `_extract_accounts_from_html`, from the already-split candidate account
blocks. -/
def extractAccountsFromHtmlBlocks (blocks : List String) : List HtmlAccount :=
  htmlAccAux 0 blocks

/-- The fields of one unified account produced by
`HTMLExtractor._convert_html_accounts_to_unified` that the retention claims
depend on. -/
structure UnifiedAccount where
  accountIndex : Nat
  originalHtmlIndex : String
  deteriorationReasoning : String
  defaultMonthNumber : ℚ
  dpdHistory : List (String × String)

/-- One step of `_convert_html_accounts_to_unified` (`enumerate(accounts, 1)`
supplies `accountIndex`); `x or d` defaults model Python truthiness. -/
def mkUnifiedFromHtml (idx : Nat) (a : HtmlAccount) : UnifiedAccount :=
  { accountIndex := idx
    originalHtmlIndex := if a.originalHtmlIndex = "" then "N/A" else a.originalHtmlIndex
    deteriorationReasoning := a.deteriorationReasoning
    defaultMonthNumber := (calcDefaultMonthNumber a.dpdHistory).getD 0
    dpdHistory := a.dpdHistory }

/-- `_convert_html_accounts_to_unified`: every raw account is converted; no
account is dropped. -/
def convertHtmlToUnified (accs : List HtmlAccount) : List UnifiedAccount :=
  accs.enum.map (fun p => mkUnifiedFromHtml (p.1 + 1) p.2)

/-- HTML path: the `accounts_list` of the unified structure, from the split
candidate blocks (`extract` passes every converted account through to
`_build_unified_structure`). -/
def htmlAccountsList (blocks : List String) : List UnifiedAccount :=
  convertHtmlToUnified (extractAccountsFromHtmlBlocks blocks)

/-- Claim-side survivors of the 50-character filter: (block index, stripped
block) for every block whose stripped form has at least 50 characters. -/
def htmlSurvivors (blocks : List String) : List (Nat × String) :=
  blocks.enum.filterMap
    (fun p =>
      let s := pyStrip p.2
      if s = "" ∨ s.data.length < 50 then none else some (p.1, s))

/-- `CIBILExtractor._clean_amount`: falsy input → `"0"`; otherwise strip, drop
every `₹`, `,` and whitespace character, return the remainder if it is a
nonempty digit string, else `"0"`. -/
def cleanAmount (raw : String) : String :=
  if raw = "" then "0"
  else
    let cleaned : String :=
      ⟨(pyStrip raw).data.filter (fun c => !(c == '₹' || c == ',' || chSpace c))⟩
    if cleaned.data ≠ [] ∧ ∀ c ∈ cleaned.data, chDigit c = true then cleaned else "0"

/-- Python `str.isdigit` (ASCII): nonempty and all digits. -/
def pyIsDigit (s : String) : Bool := !s.data.isEmpty && s.data.all chDigit

/-- `pathlib.PurePath.name`: last nonempty path component. -/
def pathName (p : String) : String :=
  (((splitOnChar '/' p).filter (fun s => !(s == ""))).getLast?).getD ""

/-- `pathlib.PurePath.suffix`: from the last dot of the name, provided the dot
is neither the first nor the last character. -/
def pathSuffix (p : String) : String :=
  let name := (pathName p).data
  match name.reverse.findIdx? (fun c => c == '.') with
  | none => ""
  | some j =>
    let i := name.length - 1 - j
    if 0 < i ∧ i < name.length - 1 then ⟨name.drop i⟩ else ""

/-- The two extractor classes of the `CIBILDataExtractor._extractors`
dispatch dict. -/
inductive ExtractorKind where
  | pdfKind
  | htmlKind
deriving DecidableEq, Repr

/-- The `_extractors` dict lookup keyed on the lowered suffix. -/
def extractorFor (ext : String) : Option ExtractorKind :=
  if ext = ".pdf" then some ExtractorKind.pdfKind
  else if ext = ".html" then some ExtractorKind.htmlKind
  else if ext = ".htm" then some ExtractorKind.htmlKind
  else none

/-- Outcome of `CIBILDataExtractor.extract` up to the dispatch decision:
the two fatal errors (with their message strings) or the selected extractor.
Dispatch happens before any file content is parsed, so the outcome is a
function of path existence and the path string alone. -/
inductive ExtractOutcome where
  | errNotFound (msg : String)
  | errUnsupported (msg : String)
  | dispatched (k : ExtractorKind)
deriving DecidableEq, Repr

/-- `CIBILDataExtractor.extract`: existence check first
(`FileNotFoundError`), then the case-insensitive suffix lookup
(`ValueError` on a miss), then dispatch. -/
def cibilDataExtract (pathExists : Bool) (filePath : String) : ExtractOutcome :=
  if pathExists = false then ExtractOutcome.errNotFound ("File not found: " ++ filePath)
  else
    let ext := strLower (pathSuffix filePath)
    match extractorFor ext with
    | none => ExtractOutcome.errUnsupported ("Unsupported format: " ++ ext)
    | some k => ExtractOutcome.dispatched k

/-- The pattern loop of `PDFAdvancedExtractor.extract_score`, modelled over
the per-pattern first-match capture (`none` when the pattern has no match in
the text; the regex engine itself is abstracted).  `int()` failure or an
out-of-range value falls through to the next pattern. -/
def extractScoreFromCandidates : List (Option String) → Option Int
  | [] => none
  | none :: rest => extractScoreFromCandidates rest
  | some g :: rest =>
    match pyIntOpt g with
    | none => extractScoreFromCandidates rest
    | some v =>
      if 300 ≤ v ∧ v ≤ 900 then some v else extractScoreFromCandidates rest

/-- Python `a or b` on an optional string (`None` and `""` are falsy): the
HTML path's score selection `_first_match(score) or _first_match(fallback)`,
which applies no range validation. -/
def pyOrStr (a b : Option String) : Option String :=
  match a with
  | none => b
  | some s => if s = "" then b else some s

/-- Claim-side stream of (year-month key, enquiry) pairs fed into the
grouping of `_filter_latest_month_enquiries` (enquiries without a truthy
parsed date contribute nothing). -/
def monthPairs (l : List Enquiry) : List (String × Enquiry) :=
  l.filterMap (fun e => (monthKey e).map (fun k => (k, e)))

theorem chSpace_eq_false_of_chDigit {c : Char} (h : chDigit c = true) :
    chSpace c = false := by
  simp only [chDigit, decide_eq_true_eq] at h
  simp only [chSpace, decide_eq_false_iff_not]
  omega

theorem upChar_eq_of_chDigit {c : Char} (h : chDigit c = true) : upChar c = c := by
  simp only [chDigit, decide_eq_true_eq] at h
  simp only [upChar, chLowerAlpha]
  rw [if_neg]
  simp only [decide_eq_true_eq]
  omega

theorem chDigit_eq_false_of_chAlpha {c : Char} (h : chAlpha c = true) :
    chDigit c = false := by
  simp only [chAlpha, chUpperAlpha, chLowerAlpha, Bool.or_eq_true,
    decide_eq_true_eq] at h
  simp only [chDigit, decide_eq_false_iff_not]
  omega

theorem chSpace_eq_false_of_chAlpha {c : Char} (h : chAlpha c = true) :
    chSpace c = false := by
  simp only [chAlpha, chUpperAlpha, chLowerAlpha, Bool.or_eq_true,
    decide_eq_true_eq] at h
  simp only [chSpace, decide_eq_false_iff_not]
  omega

theorem dropWhile_chSpace_eq_self {l : List Char}
    (h : ∀ c ∈ l, chSpace c = false) : l.dropWhile chSpace = l := by
  cases l with
  | nil => rfl
  | cons a t => simp [List.dropWhile_cons, h a (List.mem_cons_self a t)]

theorem pyStrip_eq_self_of_no_space {s : String}
    (h : ∀ c ∈ s.data, chSpace c = false) : pyStrip s = s := by
  have h1 : s.data.dropWhile chSpace = s.data := dropWhile_chSpace_eq_self h
  have h2 : s.data.reverse.dropWhile chSpace = s.data.reverse :=
    dropWhile_chSpace_eq_self (fun c hc => h c (List.mem_reverse.mp hc))
  simp only [pyStrip, h1, h2, List.reverse_reverse]

theorem strUpper_eq_self_of_digits {s : String}
    (h : ∀ c ∈ s.data, chDigit c = true) : strUpper s = s := by
  simp only [strUpper]
  rw [List.map_congr_left (fun c hc => upChar_eq_of_chDigit (h c hc))]
  simp

theorem pyIntOpt_of_digits {s : String} (hne : s.data ≠ [])
    (h : ∀ c ∈ s.data, chDigit c = true) :
    pyIntOpt s = some (digitsToNat s.data) := by
  obtain ⟨l⟩ := s
  cases l with
  | nil => exact absurd rfl hne
  | cons c rest =>
    have hc : chDigit c = true := h c (List.mem_cons_self c rest)
    have hcm : c ≠ '-' := by rintro rfl; simp [chDigit] at hc
    have hcp : c ≠ '+' := by rintro rfl; simp [chDigit] at hc
    have hall : (c :: rest).all chDigit = true := by
      rw [List.all_eq_true]; exact fun x hx => h x hx
    simp [pyIntOpt, hcm, hcp, digitsOpt, hall]

theorem chSpace_eq_false_of_upChar_target {c d : Char} (h : upChar c = d)
    (hd : chSpace d = false) : chSpace c = false := by
  by_contra hc
  rw [Bool.not_eq_false] at hc
  have hlow : chLowerAlpha c = false := by
    simp only [chSpace, decide_eq_true_eq] at hc
    simp only [chLowerAlpha, decide_eq_false_iff_not]
    omega
  rw [upChar, hlow] at h
  simp only [Bool.false_eq_true, if_false] at h
  rw [h] at hc
  rw [hc] at hd
  exact absurd hd (by simp)

theorem mem_dropWhile_chSpace_of_mem {c : Char} {l : List Char}
    (hc : c ∈ l) (h : chSpace c = false) : c ∈ l.dropWhile chSpace := by
  induction l with
  | nil => exact absurd hc (List.not_mem_nil c)
  | cons a t ih =>
    rw [List.dropWhile_cons]
    by_cases ha : chSpace a = true
    · rw [if_pos ha]
      rcases List.mem_cons.mp hc with rfl | hct
      · rw [h] at ha; exact absurd ha (by simp)
      · exact ih hct
    · rw [if_neg ha]; exact hc

theorem mem_pyStrip_of_mem {c : Char} {s : String}
    (hc : c ∈ s.data) (h : chSpace c = false) : c ∈ (pyStrip s).data := by
  simp only [pyStrip]
  rw [List.mem_reverse]
  exact mem_dropWhile_chSpace_of_mem
    (List.mem_reverse.mpr (mem_dropWhile_chSpace_of_mem hc h)) h

theorem char_eq_of_toNat_eq {a b : Char} (h : a.toNat = b.toNat) : a = b := by
  have h2 := congrArg Char.ofNat h
  rwa [Char.ofNat_toNat, Char.ofNat_toNat] at h2

theorem no_space_of_strUpper_clean {t : String} (h : strUpper t ∈ cleanStates) :
    ∀ c ∈ t.data, chSpace c = false := by
  intro c hc
  have hm : upChar c ∈ (strUpper t).data := List.mem_map_of_mem upChar hc
  rcases (by simpa [cleanStates] using h : strUpper t = "000" ∨ strUpper t = "XXX"
      ∨ strUpper t = "-" ∨ strUpper t = "STD") with h1 | h1 | h1 | h1 <;>
    rw [h1] at hm
  · have h2 : ("000" : String).data = ['0', '0', '0'] := rfl
    rw [h2] at hm
    simp only [List.mem_cons, List.not_mem_nil, or_false] at hm
    rcases hm with h3 | h3 | h3 <;> exact chSpace_eq_false_of_upChar_target h3 (by decide)
  · have h2 : ("XXX" : String).data = ['X', 'X', 'X'] := rfl
    rw [h2] at hm
    simp only [List.mem_cons, List.not_mem_nil, or_false] at hm
    rcases hm with h3 | h3 | h3 <;> exact chSpace_eq_false_of_upChar_target h3 (by decide)
  · have h2 : ("-" : String).data = ['-'] := rfl
    rw [h2] at hm
    simp only [List.mem_cons, List.not_mem_nil, or_false] at hm
    exact chSpace_eq_false_of_upChar_target hm (by decide)
  · have h2 : ("STD" : String).data = ['S', 'T', 'D'] := rfl
    rw [h2] at hm
    simp only [List.mem_cons, List.not_mem_nil, or_false] at hm
    rcases hm with h3 | h3 | h3 <;> exact chSpace_eq_false_of_upChar_target h3 (by decide)

theorem dpdToNumber_eq_zero_of_clean {t : String} (h : strUpper t ∈ cleanStates) :
    dpdToNumber t = 0 := by
  have hst : pyStrip t = t := pyStrip_eq_self_of_no_space (no_space_of_strUpper_clean h)
  simp only [dpdToNumber, hst]
  rw [if_pos]
  rcases (by simpa [cleanStates] using h : strUpper t = "000" ∨ strUpper t = "XXX"
      ∨ strUpper t = "-" ∨ strUpper t = "STD") with h1 | h1 | h1 | h1 <;> simp [h1]

theorem digitsToNat_pos_of_nonzero {a b c : Char}
    (ha : chDigit a = true) (hb : chDigit b = true) (hc : chDigit c = true)
    (hne : [a, b, c] ≠ ['0', '0', '0']) : 0 < digitsToNat [a, b, c] := by
  simp only [chDigit, decide_eq_true_eq] at ha hb hc
  simp only [digitsToNat, List.foldl_cons, List.foldl_nil]
  by_contra hle
  push_neg at hle
  have hz : a.toNat = 48 ∧ b.toNat = 48 ∧ c.toNat = 48 := by omega
  have h0 : ('0' : Char).toNat = 48 := by decide
  exact hne (by
    rw [char_eq_of_toNat_eq (a := a) (b := '0') (by omega),
      char_eq_of_toNat_eq (a := b) (b := '0') (by omega),
      char_eq_of_toNat_eq (a := c) (b := '0') (by omega)])


/-- C1: over the valid delinquency-token vocabulary (`000`, `XXX`, `STD`, `-`,
or any 3-digit string, case-insensitively), the clean/dirty classification
shared by `_dpd_to_number` and the `CLEAN_STATES` sets is: clean iff the
uppercased token is one of `000`, `XXX`, `STD`, `-`; `_dpd_to_number` maps a
clean token to 0 and any other (3-digit, hence dirty) token to its nonzero
integer value. -/
theorem dpd_clean_dirty_classification (t : String) (hv : isValidDpdToken t) :
    (isCleanTok t = true ↔ strUpper t ∈ cleanStates)
    ∧ (isCleanTok t = true → dpdToNumber t = 0)
    ∧ (isCleanTok t = false →
        t.length = 3 ∧ (∀ c ∈ t.data, chDigit c = true)
        ∧ dpdToNumber t = (digitsToNat t.data : Int) ∧ dpdToNumber t ≠ 0)
    ∧ ((∀ c ∈ t.data, chDigit c = true) → t ≠ "000" → isCleanTok t = false) := by
  refine ⟨by simp [isCleanTok],
    fun hct => dpdToNumber_eq_zero_of_clean (by simpa [isCleanTok] using hct),
    fun hcf => ?_,
    fun hdig hne0 => ?_⟩
  case refine_2 =>
    have hup : strUpper t = t := strUpper_eq_self_of_digits hdig
    simp only [isCleanTok, hup, decide_eq_false_iff_not]
    intro hmem
    rcases (by simpa [cleanStates] using hmem : t = "000" ∨ t = "XXX" ∨ t = "-"
        ∨ t = "STD") with h1 | h1 | h1 | h1
    · exact hne0 h1
    · subst h1
      have := hdig 'X' (by decide)
      exact absurd this (by decide)
    · subst h1
      have := hdig '-' (by decide)
      exact absurd this (by decide)
    · subst h1
      have := hdig 'S' (by decide)
      exact absurd this (by decide)
  have hnc : strUpper t ∉ cleanStates := by simpa [isCleanTok] using hcf
  rcases hv with hcl | ⟨hlen, hdig⟩
  · exact absurd hcl hnc
  have hstrip : pyStrip t = t :=
    pyStrip_eq_self_of_no_space (fun c hc => chSpace_eq_false_of_chDigit (hdig c hc))
  have hup : strUpper t = t := strUpper_eq_self_of_digits hdig
  have hdl : t.data.length = 3 := hlen
  have hne : t.data ≠ [] := by
    intro h0; rw [h0] at hdl; exact absurd hdl (by decide)
  have hnum : dpdToNumber t = (digitsToNat t.data : Int) := by
    simp only [dpdToNumber, hstrip, hup]
    rw [if_neg, pyIntOpt_of_digits hne hdig]
    · rfl
    · intro hor
      apply hnc
      rw [hup]
      simp only [cleanStates, List.mem_cons, List.not_mem_nil, or_false]
      tauto
  refine ⟨hlen, hdig, hnum, ?_⟩
  obtain ⟨a, b, c2, habc⟩ := List.length_eq_three.mp hdl
  have hmema : a ∈ t.data := by rw [habc]; simp
  have hmemb : b ∈ t.data := by rw [habc]; simp
  have hmemc : c2 ∈ t.data := by rw [habc]; simp
  have hzero : [a, b, c2] ≠ ['0', '0', '0'] := by
    intro heq
    apply hnc
    rw [hup]
    have ht : t = "000" := by
      have he : t = (⟨t.data⟩ : String) := rfl
      rw [he, habc, heq]
    rw [ht]
    simp [cleanStates]
  have hpos : 0 < digitsToNat t.data := by
    rw [habc]
    exact digitsToNat_pos_of_nonzero (hdig a hmema) (hdig b hmemb) (hdig c2 hmemc) hzero
  rw [hnum]
  simp only [ne_eq, Int.natCast_eq_zero]
  omega

/-- Witness for C1 at the concrete dirty token `015` and clean token `xxx`. -/
theorem dpd_clean_dirty_classification_witness :
    dpdToNumber "015" = (digitsToNat "015".data : Int) ∧ dpdToNumber "015" ≠ 0
    ∧ dpdToNumber "xxx" = 0 :=
  ⟨((dpd_clean_dirty_classification "015" (Or.inr (by decide))).2.2.1 (by decide)).2.2.1,
   ((dpd_clean_dirty_classification "015" (Or.inr (by decide))).2.2.1 (by decide)).2.2.2,
   (dpd_clean_dirty_classification "xxx" (Or.inl (by decide))).2.1 (by decide)⟩

theorem pyIsDigit_cleanAmount (raw : String) : pyIsDigit (cleanAmount raw) = true := by
  rw [cleanAmount]
  by_cases h0 : raw = ""
  · rw [if_pos h0]; decide
  · rw [if_neg h0]
    set cleaned : String :=
      ⟨(pyStrip raw).data.filter (fun c => !(c == '₹' || c == ',' || chSpace c))⟩ with hcl
    by_cases hc : cleaned.data ≠ [] ∧ ∀ c ∈ cleaned.data, chDigit c = true
    · rw [if_pos hc]
      simp only [pyIsDigit, Bool.and_eq_true, Bool.not_eq_true', List.isEmpty_eq_false,
        List.all_eq_true]
      exact ⟨hc.1, hc.2⟩
    · rw [if_neg hc]; decide

theorem cleanAmount_fixes_digit_string {s : String} (h : pyIsDigit s = true) :
    cleanAmount s = s := by
  have hdig : ∀ c ∈ s.data, chDigit c = true := by
    simp only [pyIsDigit, Bool.and_eq_true, List.all_eq_true] at h
    exact h.2
  have hne : s.data ≠ [] := by
    simp only [pyIsDigit, Bool.and_eq_true, Bool.not_eq_true',
      List.isEmpty_eq_false] at h
    exact h.1
  have h0 : s ≠ "" := by
    intro heq; rw [heq] at hne; exact hne rfl
  rw [cleanAmount, if_neg h0]
  have hstrip : pyStrip s = s :=
    pyStrip_eq_self_of_no_space (fun c hc => chSpace_eq_false_of_chDigit (hdig c hc))
  have hfil : s.data.filter (fun c => !(c == '₹' || c == ',' || chSpace c)) = s.data := by
    rw [List.filter_eq_self]
    intro c hc
    have hd := hdig c hc
    have h1 : (c == '₹') = false := by
      rw [beq_eq_false_iff_ne]
      intro heq; rw [heq] at hd; exact absurd hd (by decide)
    have h2 : (c == ',') = false := by
      rw [beq_eq_false_iff_ne]
      intro heq; rw [heq] at hd; exact absurd hd (by decide)
    simp [h1, h2, chSpace_eq_false_of_chDigit hd]
  rw [hstrip, hfil]
  have he : (⟨s.data⟩ : String) = s := rfl
  rw [he, if_pos ⟨hne, hdig⟩]

/-- C8: `_clean_amount` is idempotent, returns an already-clean digit string
unchanged, and maps any input containing a letter to the canonical zero
`"0"`. -/
theorem clean_amount_idempotent (raw : String) :
    cleanAmount (cleanAmount raw) = cleanAmount raw
    ∧ (pyIsDigit raw = true → cleanAmount raw = raw)
    ∧ (raw.data.any chAlpha = true → cleanAmount raw = "0")
    ∧ cleanAmount "₹1,00,000" = "100000"
    ∧ cleanAmount "12.5" = "0" := by
  refine ⟨cleanAmount_fixes_digit_string (pyIsDigit_cleanAmount raw),
    fun h => cleanAmount_fixes_digit_string h, fun halpha => ?_, by decide, by decide⟩
  obtain ⟨c0, hc0mem, hc0⟩ := List.any_eq_true.mp halpha
  have h0 : raw ≠ "" := by
    intro heq
    rw [heq] at hc0mem
    exact absurd hc0mem (List.not_mem_nil c0)
  rw [cleanAmount, if_neg h0]
  rw [if_neg]
  rintro ⟨-, hall⟩
  have hmem1 : c0 ∈ (pyStrip raw).data :=
    mem_pyStrip_of_mem hc0mem (chSpace_eq_false_of_chAlpha hc0)
  have hpass : (fun c => !(c == '₹' || c == ',' || chSpace c)) c0 = true := by
    have h1 : (c0 == '₹') = false := by
      rw [beq_eq_false_iff_ne]
      intro heq; rw [heq] at hc0; exact absurd hc0 (by decide)
    have h2 : (c0 == ',') = false := by
      rw [beq_eq_false_iff_ne]
      intro heq; rw [heq] at hc0; exact absurd hc0 (by decide)
    simp [h1, h2, chSpace_eq_false_of_chAlpha hc0]
  have hmem2 : c0 ∈ (pyStrip raw).data.filter
      (fun c => !(c == '₹' || c == ',' || chSpace c)) :=
    List.mem_filter.mpr ⟨hmem1, hpass⟩
  have hd := hall c0 hmem2
  rw [chDigit_eq_false_of_chAlpha hc0] at hd
  exact absurd hd (by decide)

/-- Witness for C8: the already-clean digit string `100000` is fixed and the
lettered input `1a` is rejected to `"0"`. -/
theorem clean_amount_idempotent_witness :
    cleanAmount "100000" = "100000" ∧ cleanAmount "1a" = "0" :=
  ⟨(clean_amount_idempotent "100000").2.1 (by decide),
   (clean_amount_idempotent "1a").2.2.1 (by decide)⟩

example : pathSuffix "dir/report.PDF" = ".PDF" := by decide
example : strLower (pathSuffix "dir/report.PDF") = ".pdf" := by decide
example : yearOfMonth "01-23" = "2023" := by decide
example : extractDpdHistoryPdf "015 01-23" = [("2023", "015")] := by decide
example : joinSp ["015", "032"] = "015 032" := by decide

/-- C9: `CIBILDataExtractor.extract` fails with the not-found error whenever
the path does not exist; when it exists, a lowered suffix outside
`.pdf`/`.html`/`.htm` fails with the unsupported-format error; a supported
suffix dispatches to the extractor selected by the extension.  Both error
outcomes are produced by the dispatch alone, before any content parsing. -/
theorem extract_dispatch_errors (pathExists : Bool) (p : String) :
    (pathExists = false →
      cibilDataExtract pathExists p
        = ExtractOutcome.errNotFound ("File not found: " ++ p))
    ∧ (pathExists = true → extractorFor (strLower (pathSuffix p)) = none →
      cibilDataExtract pathExists p
        = ExtractOutcome.errUnsupported
            ("Unsupported format: " ++ strLower (pathSuffix p)))
    ∧ (strLower (pathSuffix p) ∉ [".pdf", ".html", ".htm"] →
      extractorFor (strLower (pathSuffix p)) = none)
    ∧ (pathExists = true → strLower (pathSuffix p) = ".pdf" →
      cibilDataExtract pathExists p = ExtractOutcome.dispatched ExtractorKind.pdfKind)
    ∧ (pathExists = true →
      (strLower (pathSuffix p) = ".html" ∨ strLower (pathSuffix p) = ".htm") →
      cibilDataExtract pathExists p = ExtractOutcome.dispatched ExtractorKind.htmlKind) := by
  refine ⟨fun h => by simp [cibilDataExtract, h], fun h hf => ?_, fun hmem => ?_, ?_, ?_⟩
  · simp [cibilDataExtract, h, hf]
  · simp only [List.mem_cons, List.not_mem_nil, or_false, not_or] at hmem
    obtain ⟨h1, h2, h3⟩ := hmem
    simp [extractorFor, h1, h2, h3]
  · intro h hext
    simp [cibilDataExtract, h, hext, extractorFor]
  · intro h hor
    rcases hor with hext | hext <;> simp [cibilDataExtract, h, hext, extractorFor]

/-- Witness for C9: a missing path, a case-insensitively matched `.PDF`
suffix, and an unsupported `.txt` suffix. -/
theorem extract_dispatch_errors_witness :
    cibilDataExtract false "report.pdf"
      = ExtractOutcome.errNotFound "File not found: report.pdf"
    ∧ cibilDataExtract true "dir/report.PDF"
      = ExtractOutcome.dispatched ExtractorKind.pdfKind
    ∧ cibilDataExtract true "report.txt"
      = ExtractOutcome.errUnsupported "Unsupported format: .txt" :=
  ⟨(extract_dispatch_errors false "report.pdf").1 rfl,
   (extract_dispatch_errors true "dir/report.PDF").2.2.2.1 rfl (by decide),
   (extract_dispatch_errors true "report.txt").2.1 rfl (by decide)⟩

/-- C10: the PDF score loop only ever returns an integer in `[300, 900]`
(`none` otherwise); a candidate that fails `int()` conversion or falls outside
the range is skipped in favour of the next pattern; the HTML path's score
selection (`score` pattern, `or` fallback) applies no such bound and passes
an out-of-range capture like `999` straight through. -/
theorem pdf_score_range_guard (cands : List (Option String)) :
    (∀ v, extractScoreFromCandidates cands = some v → 300 ≤ v ∧ v ≤ 900)
    ∧ (∀ rest, cands = (none : Option String) :: rest →
        extractScoreFromCandidates cands = extractScoreFromCandidates rest)
    ∧ (∀ g rest, cands = some g :: rest → pyIntOpt g = none →
        extractScoreFromCandidates cands = extractScoreFromCandidates rest)
    ∧ (∀ g v rest, cands = some g :: rest → pyIntOpt g = some v →
        ¬(300 ≤ v ∧ v ≤ 900) →
        extractScoreFromCandidates cands = extractScoreFromCandidates rest)
    ∧ pyOrStr (some "999") none = some "999"
    ∧ pyOrStr none (some "5") = some "5" := by
  refine ⟨?_, ?_, ?_, ?_, by decide, by decide⟩
  · intro v
    induction cands with
    | nil => intro h; exact absurd h (by simp [extractScoreFromCandidates])
    | cons c rest ih =>
      intro h
      match c with
      | none => exact ih (by simpa [extractScoreFromCandidates] using h)
      | some g =>
        rw [extractScoreFromCandidates] at h
        match hint : pyIntOpt g with
        | none => simp only [hint] at h; exact ih h
        | some w =>
          simp only [hint] at h
          by_cases hr : 300 ≤ w ∧ w ≤ 900
          · rw [if_pos hr] at h
            obtain rfl : w = v := by simpa using h
            exact hr
          · rw [if_neg hr] at h; exact ih h
  · rintro rest rfl; rfl
  · rintro g rest rfl hint
    rw [extractScoreFromCandidates]
    simp only [hint]
  · rintro g v rest rfl hint hr
    rw [extractScoreFromCandidates]
    simp only [hint]
    rw [if_neg hr]

/-- Witness for C10: a valid score is returned and bounded; an out-of-range
first candidate (`999`) is skipped in favour of the next pattern. -/
theorem pdf_score_range_guard_witness :
    (300 ≤ (750 : Int) ∧ (750 : Int) ≤ 900)
    ∧ extractScoreFromCandidates [some "999", some "750"]
        = extractScoreFromCandidates [some "750"] :=
  ⟨(pdf_score_range_guard [some "750"]).1 750 (by decide),
   (pdf_score_range_guard [some "999", some "750"]).2.2.2.1 "999" 999 [some "750"]
     rfl (by decide) (by decide)⟩

theorem pyRound1_frac (a b f r : ℤ) (hb : 0 < b) (heq : 10 * a = b * f + r)
    (hr0 : 0 ≤ r) (hrb : r < b) :
    pyRound1 ((a : ℚ) / (b : ℚ))
      = ((if 2 * r < b then f
          else if b < 2 * r then f + 1
          else if f % 2 = 0 then f else f + 1 : ℤ) : ℚ) / 10 := by
  have hbq : (0 : ℚ) < (b : ℚ) := by exact_mod_cast hb
  have hbne : (b : ℚ) ≠ 0 := ne_of_gt hbq
  have heqq : (10 : ℚ) * a = (b : ℚ) * f + r := by exact_mod_cast heq
  have hq : ((a : ℚ) / b) * 10 = (f : ℚ) + (r : ℚ) / b := by
    field_simp
    linarith
  have hr0q : (0 : ℚ) ≤ (r : ℚ) / b := div_nonneg (by exact_mod_cast hr0) (le_of_lt hbq)
  have hrbq : (r : ℚ) / b < 1 := (div_lt_one hbq).mpr (by exact_mod_cast hrb)
  have hfloor : ⌊(a : ℚ) / b * 10⌋ = f := by
    rw [hq, Int.floor_eq_iff]
    constructor
    · linarith
    · push_cast
      linarith
  have hdiff : (a : ℚ) / b * 10 - (f : ℚ) = (r : ℚ) / b := by
    rw [hq]; ring
  have h1 : ((r : ℚ) / b < 1 / 2) ↔ (2 * r < b) := by
    rw [div_lt_div_iff hbq (by norm_num : (0 : ℚ) < 2)]
    rw [show ((1 : ℚ) * b) = ((b : ℤ) : ℚ) by push_cast; ring,
      show ((r : ℚ) * 2) = ((2 * r : ℤ) : ℚ) by push_cast; ring]
    exact Int.cast_lt
  have h2 : ((1 : ℚ) / 2 < (r : ℚ) / b) ↔ (b < 2 * r) := by
    rw [div_lt_div_iff (by norm_num : (0 : ℚ) < 2) hbq]
    rw [show ((1 : ℚ) * b) = ((b : ℤ) : ℚ) by push_cast; ring,
      show ((r : ℚ) * 2) = ((2 * r : ℤ) : ℚ) by push_cast; ring]
    exact Int.cast_lt
  rw [pyRound1, rhe, hfloor, hdiff]
  by_cases hc1 : 2 * r < b
  · rw [if_pos (h1.mpr hc1), if_pos hc1]
  · rw [if_neg (fun hlt => hc1 (h1.mp hlt)), if_neg hc1]
    by_cases hc2 : b < 2 * r
    · rw [if_pos (h2.mpr hc2), if_pos hc2]
    · rw [if_neg (fun hlt => hc2 (h2.mp hlt)), if_neg hc2]

theorem firstNonCleanIdx_eq_findIdx (l : List String) :
    ∀ k : Nat, firstNonCleanIdx k l
      = (l.findIdx? (fun t => !decide (t ∈ cleanStates))).map (· + k) := by
  induction l with
  | nil => intro k; rfl
  | cons t ts ih =>
    intro k
    rw [firstNonCleanIdx]
    by_cases ht : t ∈ cleanStates
    · rw [if_neg (by simpa using ht)]
      rw [List.findIdx?_cons]
      have hp : (!decide (t ∈ cleanStates)) = false := by simp [ht]
      rw [hp]
      simp only [Bool.false_eq_true, if_false]
      rw [List.findIdx?_succ, ih (k + 1), Option.map_map]
      congr 1
      funext i
      simp only [Function.comp_apply]
      omega
    · rw [if_pos ht, List.findIdx?_cons]
      have hp : (!decide (t ∈ cleanStates)) = true := by simp [ht]
      rw [hp]
      simp

theorem foldl_collect_eq_filterMap {α : Type} (f : α → Option Nat) :
    ∀ (l : List α) (acc : List Nat),
      l.foldl (fun acc p =>
        match f p with
        | some m => acc ++ [m]
        | none => acc) acc
      = acc ++ l.filterMap f := by
  intro l
  induction l with
  | nil => intro acc; simp
  | cons a t ih =>
    intro acc
    rw [List.foldl_cons]
    rcases hf : f a with - | m
    · simp only [hf]
      rw [ih, List.filterMap_cons, hf]
    · simp only [hf]
      rw [ih, List.filterMap_cons, hf]
      simp

theorem calcDefaultMonthNumber_eq_spec (h : List (String × String)) :
    calcDefaultMonthNumber h
      = (if h.filterMap (fun p => defaultMonthForYear p.2) = [] then none
         else some (pyRound1
           (ratMean (h.filterMap (fun p => defaultMonthForYear p.2))))) := by
  rw [calcDefaultMonthNumber]
  rw [foldl_collect_eq_filterMap (fun p => defaultMonthForYear p.2) h []]
  rw [List.nil_append]

theorem foldl_two_filterMap {α : Type} (f g : α → Option Nat) :
    ∀ (l : List α) (acc : List Nat × List Nat),
      l.foldl (fun acc h =>
        let acc1 :=
          match f h with
          | some v => acc.1 ++ [v]
          | none => acc.1
        let acc2 :=
          match g h with
          | some v => acc.2 ++ [v]
          | none => acc.2
        (acc1, acc2)) acc
      = (acc.1 ++ l.filterMap f, acc.2 ++ l.filterMap g) := by
  intro l
  induction l with
  | nil => intro acc; simp
  | cons a t ih =>
    intro acc
    rw [List.foldl_cons, ih]
    rcases hf : f a with - | m <;> rcases hg : g a with - | m2 <;>
      simp [hf, hg, List.filterMap_cons]

theorem calcDynamic_eq_spec (cy : Int) (accounts : List (List (String × String))) :
    calcDynamicFinalDefaultMonth cy accounts
      = (let cur := accounts.filterMap
           (fun h => defaultMonthForSpecificYear h (toString cy))
         let fb := accounts.filterMap
           (fun h => defaultMonthForSpecificYear h (toString (cy - 1)))
         if 5 ≤ cur.length then some (pyRound1 (ratMean cur))
         else if cur ++ fb ≠ [] then some (pyRound1 (ratMean (cur ++ fb))) else none) := by
  rw [calcDynamicFinalDefaultMonth]
  rw [foldl_two_filterMap (fun h => defaultMonthForSpecificYear h (toString cy))
    (fun h => defaultMonthForSpecificYear h (toString (cy - 1))) accounts ([], [])]
  rfl

theorem pyRound1_int (n : ℤ) : pyRound1 ((n : ℚ)) = (n : ℚ) := by
  have h : ((n : ℚ)) = ((n : ℤ) : ℚ) / ((1 : ℤ) : ℚ) := by norm_num
  rw [h, pyRound1_frac n 1 (10 * n) 0 one_pos (by ring) le_rfl one_pos]
  rw [if_pos (by omega)]
  push_cast
  ring

/-- C3 (amended): for every year's token string the default month is the
1-based position of the first non-clean token (null when entirely clean or
empty); the account default-month-number is the arithmetic mean of the
per-year default months *rounded to one decimal place (round half to even,
Python `round(x, 1)`)*, or null when no year yields one.  For
`{"2023": "000 000 015 XXX"}` the year's default month is 3 and the account
value is 3.0. -/
theorem default_month_mean_rounded :
    (∀ s : String, defaultMonthForYear s
        = (((dpdFindall s.data).map strUpper).findIdx?
            (fun t => !decide (t ∈ cleanStates))).map (· + 1))
    ∧ (∀ h : List (String × String),
        calcDefaultMonthNumber h
          = (if h.filterMap (fun p => defaultMonthForYear p.2) = [] then none
             else some (pyRound1
               (ratMean (h.filterMap (fun p => defaultMonthForYear p.2))))))
    ∧ defaultMonthForYear "000 000 015 XXX" = some 3
    ∧ calcDefaultMonthNumber [("2023", "000 000 015 XXX")] = some 3 := by
  refine ⟨fun s => ?_, calcDefaultMonthNumber_eq_spec, by decide, ?_⟩
  · rw [defaultMonthForYear, firstNonCleanIdx_eq_findIdx]
  · rw [calcDefaultMonthNumber_eq_spec]
    have hfm : ([("2023", "000 000 015 XXX")] : List (String × String)).filterMap
        (fun p => defaultMonthForYear p.2) = [3] := by decide
    rw [hfm, if_neg (by decide)]
    have hm : ratMean [3] = ((3 : ℤ) : ℚ) := by
      unfold ratMean
      norm_num
    rw [hm, pyRound1_int]
    norm_num

/-- C3 counterexample: for the history with per-year default months
`[1, 1, 2]` the code returns `round(4/3, 1) = 1.3`, which is not the
arithmetic mean `4/3` the claim asserts. -/
theorem default_month_mean_counterexample :
    ([("2021", "015"), ("2022", "015"), ("2023", "000 015")] :
        List (String × String)).filterMap (fun p => defaultMonthForYear p.2)
      = [1, 1, 2]
    ∧ calcDefaultMonthNumber
        [("2021", "015"), ("2022", "015"), ("2023", "000 015")]
      = some (13 / 10)
    ∧ ratMean [1, 1, 2] = 4 / 3
    ∧ ((13 : ℚ) / 10) ≠ 4 / 3 := by
  have hmean : ratMean [1, 1, 2] = 4 / 3 := by
    unfold ratMean
    norm_num
  refine ⟨by decide, ?_, hmean, by norm_num⟩
  rw [calcDefaultMonthNumber_eq_spec]
  have hfm : ([("2021", "015"), ("2022", "015"), ("2023", "000 015")] :
      List (String × String)).filterMap (fun p => defaultMonthForYear p.2)
      = [1, 1, 2] := by decide
  rw [hfm, if_neg (by decide), hmean]
  have hc : (4 : ℚ) / 3 = ((4 : ℤ) : ℚ) / ((3 : ℤ) : ℚ) := by norm_num
  rw [hc, pyRound1_frac 4 3 13 1 (by omega) (by ring) (by omega) (by omega)]
  rw [if_pos (by omega)]
  norm_num

/-- C4 (amended): the document-level final default-month value follows the
two-tier policy — with at least 5 current-calendar-year values it is the mean
of exactly those values *rounded to one decimal place*; otherwise the mean of
the current-year values combined with the previous-year values, rounded the
same way; null when neither tier yields values.  With 6 accounts supplying a
current-year value the first tier is used (the previous-year values are
ignored); with 4 the fallback tier is used. -/
theorem final_default_month_two_tier :
    (∀ (cy : Int) (accounts : List (List (String × String))),
      calcDynamicFinalDefaultMonth cy accounts
        = (if 5 ≤ (accounts.filterMap
              (fun h => defaultMonthForSpecificYear h (toString cy))).length then
             some (pyRound1 (ratMean (accounts.filterMap
               (fun h => defaultMonthForSpecificYear h (toString cy)))))
           else if accounts.filterMap
                (fun h => defaultMonthForSpecificYear h (toString cy))
              ++ accounts.filterMap
                (fun h => defaultMonthForSpecificYear h (toString (cy - 1))) ≠ [] then
             some (pyRound1 (ratMean (accounts.filterMap
                 (fun h => defaultMonthForSpecificYear h (toString cy))
               ++ accounts.filterMap
                 (fun h => defaultMonthForSpecificYear h (toString (cy - 1))))))
           else none))
    ∧ ((List.replicate 6 [("2025", "015"), ("2024", "000 000 015")]).filterMap
        (fun h => defaultMonthForSpecificYear h (toString (2025 : Int)))).length = 6
    ∧ calcDynamicFinalDefaultMonth 2025
        (List.replicate 6 [("2025", "015"), ("2024", "000 000 015")]) = some 1
    ∧ ((List.replicate 4 [("2025", "015"), ("2024", "000 000 015")]).filterMap
        (fun h => defaultMonthForSpecificYear h (toString (2025 : Int)))).length = 4
    ∧ calcDynamicFinalDefaultMonth 2025
        (List.replicate 4 [("2025", "015"), ("2024", "000 000 015")]) = some 2 := by
  refine ⟨calcDynamic_eq_spec, by decide, ?_, by decide, ?_⟩
  · rw [calcDynamic_eq_spec]
    have h1 : (List.replicate 6 [("2025", "015"), ("2024", "000 000 015")]).filterMap
        (fun h => defaultMonthForSpecificYear h (toString (2025 : Int)))
        = [1, 1, 1, 1, 1, 1] := by decide
    simp only [h1]
    rw [if_pos (by decide)]
    have hm : ratMean [1, 1, 1, 1, 1, 1] = ((1 : ℤ) : ℚ) := by
      unfold ratMean
      norm_num
    rw [hm, pyRound1_int]
    norm_num
  · rw [calcDynamic_eq_spec]
    have h1 : (List.replicate 4 [("2025", "015"), ("2024", "000 000 015")]).filterMap
        (fun h => defaultMonthForSpecificYear h (toString (2025 : Int)))
        = [1, 1, 1, 1] := by decide
    have h2 : (List.replicate 4 [("2025", "015"), ("2024", "000 000 015")]).filterMap
        (fun h => defaultMonthForSpecificYear h (toString ((2025 : Int) - 1)))
        = [3, 3, 3, 3] := by decide
    simp only [h1, h2]
    rw [if_neg (by decide), if_pos (by decide)]
    have hm : ratMean ([1, 1, 1, 1] ++ [3, 3, 3, 3]) = ((2 : ℤ) : ℚ) := by
      unfold ratMean
      norm_num
    rw [hm, pyRound1_int]
    norm_num

/-- C4 counterexample: with six current-year default months `[1,1,1,1,1,2]`
the code returns `round(7/6, 1) = 1.2`, which is not the arithmetic mean
`7/6` the claim asserts. -/
theorem final_default_month_counterexample :
    ((List.replicate 5 [("2025", "015")] ++ [[("2025", "000 015")]]).filterMap
        (fun h => defaultMonthForSpecificYear h (toString (2025 : Int))))
      = [1, 1, 1, 1, 1, 2]
    ∧ calcDynamicFinalDefaultMonth 2025
        (List.replicate 5 [("2025", "015")] ++ [[("2025", "000 015")]])
      = some (6 / 5)
    ∧ ratMean [1, 1, 1, 1, 1, 2] = 7 / 6
    ∧ ((6 : ℚ) / 5) ≠ 7 / 6 := by
  have hmean : ratMean [1, 1, 1, 1, 1, 2] = 7 / 6 := by
    unfold ratMean
    norm_num
  refine ⟨by decide, ?_, hmean, by norm_num⟩
  rw [calcDynamic_eq_spec]
  have h1 : ((List.replicate 5 [("2025", "015")] ++ [[("2025", "000 015")]]).filterMap
      (fun h => defaultMonthForSpecificYear h (toString (2025 : Int))))
      = [1, 1, 1, 1, 1, 2] := by decide
  simp only [h1]
  rw [if_pos (by decide), hmean]
  have hc : (7 : ℚ) / 6 = ((7 : ℤ) : ℚ) / ((6 : ℤ) : ℚ) := by norm_num
  rw [hc, pyRound1_frac 7 6 11 4 (by omega) (by ring) (by omega) (by omega)]
  rw [if_neg (by omega), if_pos (by omega)]
  norm_num

theorem firstTransition_eq_find (l : List String) :
    firstCleanDirtyTransition l
      = (l.zip l.tail).find?
          (fun pc => decide (pc.1 ∈ cleanStates) != decide (pc.2 ∈ cleanStates)) := by
  induction l with
  | nil => rfl
  | cons a tail ih =>
    cases tail with
    | nil => rfl
    | cons b rest =>
      rw [firstCleanDirtyTransition]
      have htl : (a :: b :: rest).tail = b :: rest := rfl
      rw [htl, List.zip_cons_cons]
      by_cases hp : decide (a ∈ cleanStates) ≠ decide (b ∈ cleanStates)
      · rw [if_pos hp, List.find?_cons_of_pos _ (by simpa [bne_iff_ne] using hp)]
      · rw [if_neg hp, List.find?_cons_of_neg _ (by simpa [bne_iff_ne] using hp)]
        exact ih

theorem findExplicitDirty_eq_find (vals : List String) (l : List String) :
    findExplicitDirty vals l = l.find? (fun d => decide (d ∈ vals)) := by
  induction l with
  | nil => rfl
  | cons d ds ih =>
    rw [findExplicitDirty]
    by_cases hd : d ∈ vals
    · rw [if_pos hd, List.find?_cons_of_pos _ (by simpa using hd)]
    · rw [if_neg hd, List.find?_cons_of_neg _ (by simpa using hd)]
      exact ih

theorem deteriorationForYear_eq_spec (year s : String) :
    deteriorationForYear year s = specYearReasoning year s := by
  rw [deteriorationForYear, specYearReasoning]
  by_cases hs : s = ""
  · rw [if_pos hs]
    subst hs
    have hd : dpdFindall ("" : String).data = [] := rfl
    simp [hd]
  · rw [if_neg hs]
    by_cases hnil : (dpdFindall s.data).map strUpper = []
    · rw [if_pos hnil, hnil]
      simp
    · rw [if_neg hnil]
      have hany : ((dpdFindall s.data).map strUpper).any
            (fun t => decide (t ∈ cleanStates)) = false
          ↔ (∀ t ∈ (dpdFindall s.data).map strUpper, t ∉ cleanStates) := by
        rw [List.any_eq_false]
        constructor <;> intro hx t ht <;> simpa using hx t ht
      by_cases hcond : ∀ t ∈ (dpdFindall s.data).map strUpper, t ∉ cleanStates
      · rw [if_pos ⟨hany.mpr hcond, List.length_pos.mpr hnil⟩, if_pos ⟨hnil, hcond⟩]
      · rw [if_neg (fun hc => hcond (hany.mp hc.1)), if_neg (fun hc => hcond hc.2)]
        rw [firstTransition_eq_find, findExplicitDirty_eq_find]

theorem getDetAux_eq_spec (h : List (String × String)) (ys : List String) :
    getDetAux h ys = specDetAux h ys := by
  induction ys with
  | nil => rfl
  | cons y t ih =>
    rw [getDetAux, specDetAux, deteriorationForYear_eq_spec]
    rcases hsy : specYearReasoning y ((hGet h y).getD "") with - | r <;> simp [hsy, ih]

theorem getDetAux_eq_empty (h : List (String × String)) (ys : List String)
    (hall : ∀ y ∈ ys, deteriorationForYear y ((hGet h y).getD "") = none) :
    getDetAux h ys = "" := by
  induction ys with
  | nil => rfl
  | cons y t ih =>
    rw [getDetAux, hall y (List.mem_cons_self y t)]
    exact ih (fun z hz => hall z (List.mem_cons_of_mem y hz))

/-- C2: `_get_deterioration_reasoning` iterates years in ascending sorted
order and applies, per year, the three rules in priority order
(completely-dirty, then first clean/dirty adjacent transition, then explicit
dirty code), returning at the first year where a rule fires — stated as an
equivalence with the claim-side reading `specDetReasoning`.  The year
`["015","032"]` yields the completely-dirty reasoning, `["000","015"]` the
clean-to-dirty transition reasoning, and a history firing no rule yields the
empty string. -/
theorem deterioration_reasoning_rules :
    (∀ h : List (String × String), getDeteriorationReasoning h = specDetReasoning h)
    ∧ getDeteriorationReasoning [("2023", "015 032")]
        = "COMPLETELY_DIRTY: 2 dirty tokens in 2023"
    ∧ getDeteriorationReasoning [("2023", "000 015")]
        = "CLEAN_TO_DIRTY: \x27000\x27→\x27015\x27 in 2023"
    ∧ (∀ h : List (String × String),
        (∀ y ∈ sortStrings (h.map Prod.fst),
          deteriorationForYear y ((hGet h y).getD "") = none) →
        getDeteriorationReasoning h = "") :=
  ⟨fun h => getDetAux_eq_spec h (sortStrings (h.map Prod.fst)),
   by decide, by decide,
   fun h hall => getDetAux_eq_empty h (sortStrings (h.map Prod.fst)) hall⟩

/-- Witness for C2's hypothesis-bearing conjunct: an all-clean single-year
history fires no rule and yields the empty reasoning. -/
theorem deterioration_reasoning_rules_witness :
    getDeteriorationReasoning [("2023", "000 000")] = "" :=
  deterioration_reasoning_rules.2.2.2 [("2023", "000 000")] (by decide)

theorem valsFor_cons_eq {β : Type} (k k0 : String) (v0 : β) (ps : List (String × β))
    (h : k0 = k) : valsFor k ((k0, v0) :: ps) = v0 :: valsFor k ps := by
  simp [valsFor, List.filterMap_cons, h]

theorem valsFor_cons_ne {β : Type} (k k0 : String) (v0 : β) (ps : List (String × β))
    (h : ¬ k0 = k) : valsFor k ((k0, v0) :: ps) = valsFor k ps := by
  simp [valsFor, List.filterMap_cons, h]

theorem mem_firstDedupFrom {x : String} :
    ∀ (l seen : List String), x ∈ firstDedupFrom seen l ↔ (x ∈ l ∧ x ∉ seen) := by
  intro l
  induction l with
  | nil => intro seen; simp [firstDedupFrom]
  | cons k ks ih =>
    intro seen
    rw [firstDedupFrom]
    by_cases hk : k ∈ seen
    · rw [if_pos hk, ih]
      constructor
      · rintro ⟨h1, h2⟩; exact ⟨List.mem_cons_of_mem k h1, h2⟩
      · rintro ⟨h1, h2⟩
        rcases List.mem_cons.mp h1 with rfl | h1
        · exact absurd hk h2
        · exact ⟨h1, h2⟩
    · rw [if_neg hk]
      by_cases hx : x = k
      · subst hx
        simp [hk]
      · simp only [List.mem_cons, hx, false_or]
        rw [ih]
        simp only [List.mem_append, List.mem_singleton, hx, or_false]

theorem nodup_firstDedupFrom : ∀ (l seen : List String), (firstDedupFrom seen l).Nodup := by
  intro l
  induction l with
  | nil => intro seen; exact List.nodup_nil
  | cons k ks ih =>
    intro seen
    rw [firstDedupFrom]
    by_cases hk : k ∈ seen
    · rw [if_pos hk]; exact ih seen
    · rw [if_neg hk]
      refine List.Nodup.cons ?_ (ih (seen ++ [k]))
      intro hmem
      have h2 := (mem_firstDedupFrom ks (seen ++ [k])).mp hmem
      exact h2.2 (by simp)

theorem foldl_upsApp_spec {β : Type} :
    ∀ (l : List (String × β)) (acc : List (String × List β)),
      (acc.map Prod.fst).Nodup →
      l.foldl (fun a p => upsApp a p.1 p.2) acc
        = acc.map (fun q => (q.1, q.2 ++ valsFor q.1 l))
          ++ (firstDedupFrom (acc.map Prod.fst) (l.map Prod.fst)).map
              (fun k => (k, valsFor k l)) := by
  intro l
  induction l with
  | nil =>
    intro acc hnd
    simp [valsFor, firstDedupFrom]
  | cons p ps ih =>
    intro acc hnd
    obtain ⟨k0, v0⟩ := p
    rw [List.foldl_cons]
    by_cases hk : k0 ∈ acc.map Prod.fst
    · have hany : acc.any (fun q => decide (q.1 = k0)) = true := by
        rw [List.any_eq_true]
        obtain ⟨q, hq, hq1⟩ := List.mem_map.mp hk
        exact ⟨q, hq, by simpa using hq1⟩
      have hups : upsApp acc k0 v0
          = acc.map (fun q => if q.1 = k0 then (q.1, q.2 ++ [v0]) else q) := by
        rw [upsApp, if_pos hany]
      have hkeys : (acc.map (fun q => if q.1 = k0 then (q.1, q.2 ++ [v0]) else q)).map
            Prod.fst = acc.map Prod.fst := by
        rw [List.map_map]
        apply List.map_congr_left
        intro q hq
        by_cases h : q.1 = k0 <;> simp [h]
      rw [hups, ih _ (by rw [hkeys]; exact hnd), hkeys]
      have hded : firstDedupFrom (acc.map Prod.fst) (((k0, v0) :: ps).map Prod.fst)
          = firstDedupFrom (acc.map Prod.fst) (ps.map Prod.fst) := by
        rw [List.map_cons, firstDedupFrom, if_pos hk]
      rw [hded]
      congr 1
      · rw [List.map_map]
        apply List.map_congr_left
        intro q hq
        by_cases hq1 : q.1 = k0
        · simp only [Function.comp_apply, if_pos hq1]
          rw [valsFor_cons_eq q.1 k0 v0 ps hq1.symm]
          simp
        · simp only [Function.comp_apply, if_neg hq1]
          rw [valsFor_cons_ne q.1 k0 v0 ps (fun heq => hq1 heq.symm)]
      · apply List.map_congr_left
        intro k hkmem
        have hkd := (mem_firstDedupFrom (ps.map Prod.fst) (acc.map Prod.fst)).mp hkmem
        have hkne : ¬ k0 = k := by
          intro heq; rw [← heq] at hkd; exact hkd.2 hk
        rw [valsFor_cons_ne k k0 v0 ps hkne]
    · have hany : acc.any (fun q => decide (q.1 = k0)) = false := by
        rw [List.any_eq_false]
        intro q hq
        simp only [decide_eq_true_eq]
        intro heq
        exact hk (List.mem_map.mpr ⟨q, hq, heq⟩)
      have hups : upsApp acc k0 v0 = acc ++ [(k0, [v0])] := by
        rw [upsApp, hany]
        simp
      have hkeys : ((acc ++ [(k0, [v0])]).map Prod.fst) = acc.map Prod.fst ++ [k0] := by
        simp
      have hnd2 : ((acc ++ [(k0, [v0])]).map Prod.fst).Nodup := by
        rw [hkeys, List.nodup_append]
        refine ⟨hnd, List.nodup_singleton k0, fun a ha hb => ?_⟩
        rw [List.mem_singleton] at hb
        subst hb
        exact hk ha
      rw [hups, ih _ hnd2, hkeys]
      have hded : firstDedupFrom (acc.map Prod.fst) (((k0, v0) :: ps).map Prod.fst)
          = k0 :: firstDedupFrom (acc.map Prod.fst ++ [k0]) (ps.map Prod.fst) := by
        rw [List.map_cons, firstDedupFrom, if_neg hk]
      rw [hded, List.map_append]
      have hmid : ([(k0, [v0])].map (fun q => (q.1, q.2 ++ valsFor q.1 ps)))
          = [(k0, valsFor k0 ((k0, v0) :: ps))] := by
        rw [valsFor_cons_eq k0 k0 v0 ps rfl]
        simp
      rw [hmid]
      have hacc : acc.map (fun q => (q.1, q.2 ++ valsFor q.1 ps))
          = acc.map (fun q => (q.1, q.2 ++ valsFor q.1 ((k0, v0) :: ps))) := by
        apply List.map_congr_left
        intro q hq
        have hq1 : ¬ k0 = q.1 := by
          intro heq
          exact hk (List.mem_map.mpr ⟨q, hq, heq.symm⟩)
        rw [valsFor_cons_ne q.1 k0 v0 ps hq1]
      have hrest : (firstDedupFrom (acc.map Prod.fst ++ [k0]) (ps.map Prod.fst)).map
            (fun k => (k, valsFor k ps))
          = (firstDedupFrom (acc.map Prod.fst ++ [k0]) (ps.map Prod.fst)).map
            (fun k => (k, valsFor k ((k0, v0) :: ps))) := by
        apply List.map_congr_left
        intro k hkmem
        have hkd := (mem_firstDedupFrom (ps.map Prod.fst) _).mp hkmem
        have hkne : ¬ k0 = k := by
          intro heq
          exact hkd.2 (by rw [← heq]; simp)
        rw [valsFor_cons_ne k k0 v0 ps hkne]
      rw [hacc, hrest, List.map_cons, List.append_assoc]
      rfl

theorem groupPairs_spec {β : Type} (l : List (String × β)) :
    groupPairs l
      = (firstDedupFrom [] (l.map Prod.fst)).map (fun k => (k, valsFor k l)) := by
  rw [groupPairs, foldl_upsApp_spec l [] (by simp)]
  simp

theorem extractDpdHistoryPdf_of_no_tokens {b : String}
    (h : dpdFindall b.data = []) : extractDpdHistoryPdf b = [] := by
  rw [extractDpdHistoryPdf, if_pos h]

theorem extractDpdHistoryPdf_of_no_months {b : String}
    (ht : dpdFindall b.data ≠ []) (hm : monthFindall b.data = []) :
    extractDpdHistoryPdf b = [("UNKNOWN", joinSp (dpdFindall b.data))] := by
  rw [extractDpdHistoryPdf, if_neg ht, hm]
  simp [groupPairs]

theorem extractDpdHistoryPdf_of_months {b : String}
    (hm : monthFindall b.data ≠ []) :
    extractDpdHistoryPdf b = specPdfHist b := by
  rw [extractDpdHistoryPdf]
  by_cases ht : dpdFindall b.data = []
  · rw [if_pos ht]
    rw [specPdfHist, specPdfPairs, ht]
    simp [firstDedupFrom]
  · rw [if_neg ht]
    have hgroup : (groupPairs (specPdfPairs b)).map (fun p => (p.1, joinSp p.2))
        = specPdfHist b := by
      rw [groupPairs_spec, specPdfHist, List.map_map]
      rfl
    have hne : specPdfHist b ≠ [] := by
      rcases hmv : monthFindall b.data with - | ⟨m, ms⟩
      · exact absurd hmv hm
      rcases htv : dpdFindall b.data with - | ⟨t, ts⟩
      · exact absurd htv ht
      have hrest : specPdfPairs b = (yearOfMonth m, t) ::
          (((ms.take ts.length).map yearOfMonth).zip ts) := by
        rw [specPdfPairs, hmv, htv, List.length_cons, List.take_succ_cons,
          List.map_cons, List.zip_cons_cons]
      rw [specPdfHist, hrest, List.map_cons, firstDedupFrom,
        if_neg (List.not_mem_nil (yearOfMonth m))]
      simp
    show (if (groupPairs (specPdfPairs b)).map (fun p => (p.1, joinSp p.2)) = []
        then [("UNKNOWN", joinSp (dpdFindall b.data))]
        else (groupPairs (specPdfPairs b)).map (fun p => (p.1, joinSp p.2)))
      = specPdfHist b
    rw [hgroup, if_neg hne]

/-- C6 (amended): `_extract_dpd_history_pdf` matches delinquency tokens and
month stamps as two flat sequences and pairs them positionally by index
(`token[i]` attributed to the year of `month[i]`, formalised by the grouping
of `specPdfPairs`); when at least one month stamp is present, tokens beyond
the available month stamps are *dropped*; the sentinel year `"UNKNOWN"`
receives all tokens exactly when there are tokens but no month stamps at
all. -/
theorem pdf_dpd_positional_pairing :
    (∀ b : String, dpdFindall b.data = [] → extractDpdHistoryPdf b = [])
    ∧ (∀ b : String, dpdFindall b.data ≠ [] → monthFindall b.data = [] →
        extractDpdHistoryPdf b = [("UNKNOWN", joinSp (dpdFindall b.data))])
    ∧ (∀ b : String, monthFindall b.data ≠ [] →
        extractDpdHistoryPdf b = specPdfHist b) :=
  ⟨fun _ h => extractDpdHistoryPdf_of_no_tokens h,
   fun _ ht hm => extractDpdHistoryPdf_of_no_months ht hm,
   fun _ hm => extractDpdHistoryPdf_of_months hm⟩

/-- Witness for C6 at concrete blocks: a block with tokens and no month
stamps lands under `"UNKNOWN"`; a block with a month stamp groups
positionally. -/
theorem pdf_dpd_positional_pairing_witness :
    extractDpdHistoryPdf "015 032" = [("UNKNOWN", "015 032")]
    ∧ extractDpdHistoryPdf "015 01-23" = specPdfHist "015 01-23" :=
  ⟨(pdf_dpd_positional_pairing.2.1 "015 032" (by decide) (by decide)).trans (by decide),
   pdf_dpd_positional_pairing.2.2 "015 01-23" (by decide)⟩

/-- C6 counterexample: `"015 032 01-23"` has three matched delinquency tokens
(`015`, `032`, and the `-` inside the month stamp) but only one month stamp;
the claim says every token beyond the month stamps is grouped under
`"UNKNOWN"`, yet the result pairs only the first token and silently drops the
rest — no `"UNKNOWN"` entry exists. -/
theorem pdf_dpd_unknown_counterexample :
    (dpdFindall "015 032 01-23".data).length = 3
    ∧ (monthFindall "015 032 01-23".data).length = 1
    ∧ extractDpdHistoryPdf "015 032 01-23" = [("2023", "015")] := by
  decide

theorem pdfRetainAux_eq_take_filter :
    ∀ (hs : List (List (String × String))) (idx : Nat),
      pdfRetainAux idx hs
        = (hs.take (201 - idx)).filter
            (fun h => decide (getDeteriorationReasoning h ≠ "")) := by
  intro hs
  induction hs with
  | nil => intro idx; simp [pdfRetainAux]
  | cons h rest ih =>
    intro idx
    rw [pdfRetainAux]
    by_cases hidx : 200 < idx
    · rw [if_pos hidx]
      have hz : 201 - idx = 0 := by omega
      rw [hz]
      simp
    · rw [if_neg hidx]
      have hz : 201 - idx = (201 - (idx + 1)) + 1 := by omega
      rw [hz, List.take_succ_cons, List.filter_cons]
      by_cases hr : getDeteriorationReasoning h ≠ ""
      · rw [if_pos hr, ih (idx + 1)]
        simp [hr]
      · rw [if_neg hr, ih (idx + 1)]
        simp [hr]

theorem extractDeterioratingAccountsPdf_eq (hs : List (List (String × String))) :
    extractDeterioratingAccountsPdf hs
      = (hs.take 200).filter (fun h => decide (getDeteriorationReasoning h ≠ "")) := by
  rw [extractDeterioratingAccountsPdf, pdfRetainAux_eq_take_filter hs 1]

theorem htmlAccAux_eq :
    ∀ (blocks : List String) (i : Nat),
      htmlAccAux i blocks
        = ((blocks.enumFrom i).filterMap
            (fun p =>
              if pyStrip p.2 = "" ∨ (pyStrip p.2).data.length < 50 then none
              else some (p.1, pyStrip p.2))).map
          (fun p => mkHtmlAccount p.1 p.2) := by
  intro blocks
  induction blocks with
  | nil => intro i; rfl
  | cons b bs ih =>
    intro i
    rw [htmlAccAux]
    by_cases hb : pyStrip b = "" ∨ (pyStrip b).data.length < 50
    · rw [if_pos hb, ih (i + 1), List.enumFrom_cons, List.filterMap_cons]
      have hf : (if pyStrip b = "" ∨ (pyStrip b).data.length < 50 then none
          else some (i, pyStrip b)) = (none : Option (Nat × String)) := if_pos hb
      simp only [hf]
    · rw [if_neg hb, ih (i + 1), List.enumFrom_cons, List.filterMap_cons]
      have hf : (if pyStrip b = "" ∨ (pyStrip b).data.length < 50 then none
          else some (i, pyStrip b)) = some (i, pyStrip b) := if_neg hb
      simp only [hf, List.map_cons]

theorem extractAccounts_eq_survivors (blocks : List String) :
    extractAccountsFromHtmlBlocks blocks
      = (htmlSurvivors blocks).map (fun p => mkHtmlAccount p.1 p.2) := by
  rw [extractAccountsFromHtmlBlocks, htmlAccAux_eq blocks 0]
  rfl

/-- C7 (amended): account retention is asymmetric between formats.  PDF path:
among the accounts parsed before the `max_accounts = 200` cap, an account is
retained iff its deterioration reasoning is nonempty.  HTML path: the final
unified accounts list is exactly the converted list of *all* blocks that
survive the 50-character minimum, regardless of their reasoning or
delinquency content. -/
theorem account_retention_asymmetry :
    (∀ hs : List (List (String × String)),
      extractDeterioratingAccountsPdf hs
        = (hs.take 200).filter (fun h => decide (getDeteriorationReasoning h ≠ "")))
    ∧ (∀ (hs : List (List (String × String))) (h : List (String × String)),
        h ∈ hs.take 200 →
        (h ∈ extractDeterioratingAccountsPdf hs ↔ getDeteriorationReasoning h ≠ ""))
    ∧ (∀ blocks : List String,
        htmlAccountsList blocks
          = (htmlSurvivors blocks).enum.map
              (fun q => mkUnifiedFromHtml (q.1 + 1) (mkHtmlAccount q.2.1 q.2.2)))
    ∧ (∀ blocks : List String,
        (htmlAccountsList blocks).length = (htmlSurvivors blocks).length) := by
  have hhtml : ∀ blocks : List String, htmlAccountsList blocks
      = (htmlSurvivors blocks).enum.map
          (fun q => mkUnifiedFromHtml (q.1 + 1) (mkHtmlAccount q.2.1 q.2.2)) := by
    intro blocks
    rw [htmlAccountsList, convertHtmlToUnified, extractAccounts_eq_survivors,
      List.enum_map, List.map_map]
    rfl
  refine ⟨extractDeterioratingAccountsPdf_eq, fun hs h hmem => ?_, hhtml,
    fun blocks => by rw [hhtml]; simp⟩
  rw [extractDeterioratingAccountsPdf_eq hs, List.mem_filter]
  constructor
  · rintro ⟨-, hp⟩
    simpa using hp
  · intro hr
    exact ⟨hmem, by simpa using hr⟩

/-- Witness for C7: a single deteriorating account (within the cap) is
retained on the PDF path. -/
theorem account_retention_asymmetry_witness :
    [("2023", "015")] ∈ extractDeterioratingAccountsPdf [[("2023", "015")]] :=
  (account_retention_asymmetry.2.1 [[("2023", "015")]] [("2023", "015")]
    (by decide)).mpr (by decide)

/-- C7 counterexample: the PDF retention iff fails past the 200-account cap —
account number 201 has nonempty deterioration reasoning but is not in the
returned list. -/
theorem account_retention_cap_counterexample :
    getDeteriorationReasoning [("2022", "015")] ≠ ""
    ∧ [("2022", "015")] ∉ extractDeterioratingAccountsPdf
        (List.replicate 200 [("2023", "015")] ++ [[("2022", "015")]]) := by
  refine ⟨by decide, fun hmem => ?_⟩
  rw [extractDeterioratingAccountsPdf_eq] at hmem
  have htake : (List.replicate 200 [("2023", "015")] ++ [[("2022", "015")]]).take 200
      = List.replicate 200 [("2023", "015")] := by
    rw [show (200 : Nat) = (List.replicate 200 [("2023", "015")]).length from
      (List.length_replicate 200 _).symm]
    exact List.take_left _ _
  rw [htake] at hmem
  have h1 := (List.mem_filter.mp hmem).1
  have h2 := List.eq_of_mem_replicate h1
  exact absurd h2 (by decide)

theorem charListLt_irrefl : ∀ l : List Char, charListLt l l = false := by
  intro l
  induction l with
  | nil => rfl
  | cons a t ih =>
    rw [charListLt, if_neg (lt_irrefl a.toNat), if_neg (lt_irrefl a.toNat)]
    exact ih

theorem charListLt_asymm : ∀ l1 l2 : List Char,
    charListLt l1 l2 = true → charListLt l2 l1 = false
  | [], [] => fun h => by simpa [charListLt] using h
  | [], _ :: _ => fun _ => rfl
  | _ :: _, [] => fun h => by simpa [charListLt] using h
  | a :: as, b :: bs => fun h => by
      rw [charListLt] at h ⊢
      by_cases h1 : a.toNat < b.toNat
      · rw [if_neg (by omega : ¬ b.toNat < a.toNat), if_pos h1]
      · rw [if_neg h1] at h
        by_cases h2 : b.toNat < a.toNat
        · rw [if_pos h2] at h
          exact absurd h (by decide)
        · rw [if_neg h2] at h
          rw [if_neg h2, if_neg h1]
          exact charListLt_asymm as bs h

theorem charListLt_conn : ∀ l1 l2 : List Char,
    charListLt l1 l2 = false → charListLt l2 l1 = false → l1 = l2
  | [], [] => fun _ _ => rfl
  | [], _ :: _ => fun h _ => by simpa [charListLt] using h
  | _ :: _, [] => fun _ h => by simpa [charListLt] using h
  | a :: as, b :: bs => fun h1 h2 => by
      rw [charListLt] at h1 h2
      by_cases ha : a.toNat < b.toNat
      · rw [if_pos ha] at h1
        exact absurd h1 (by decide)
      · by_cases hb : b.toNat < a.toNat
        · rw [if_pos hb] at h2
          exact absurd h2 (by decide)
        · rw [if_neg ha, if_neg hb] at h1
          rw [if_neg hb, if_neg ha] at h2
          have hab : a = b := char_eq_of_toNat_eq (by omega)
          rw [hab, charListLt_conn as bs h1 h2]

theorem charListLt_trans : ∀ l1 l2 l3 : List Char, charListLt l1 l2 = true →
    charListLt l2 l3 = true → charListLt l1 l3 = true
  | _, [], [] => fun _ h2 => by simpa [charListLt] using h2
  | _, _ :: _, [] => fun _ h2 => by simpa [charListLt] using h2
  | [], [], _ :: _ => fun h1 _ => by simpa [charListLt] using h1
  | [], _ :: _, _ :: _ => fun _ _ => rfl
  | _ :: _, [], _ :: _ => fun h1 _ => by simpa [charListLt] using h1
  | a :: as, b :: bs, c :: cs => fun h1 h2 => by
      rw [charListLt] at h1 h2 ⊢
      by_cases hab : a.toNat < b.toNat
      · by_cases hbc : b.toNat < c.toNat
        · rw [if_pos (by omega : a.toNat < c.toNat)]
        · rw [if_neg hbc] at h2
          by_cases hcb : c.toNat < b.toNat
          · rw [if_pos hcb] at h2
            exact absurd h2 (by decide)
          · rw [if_pos (by omega : a.toNat < c.toNat)]
      · rw [if_neg hab] at h1
        by_cases hba : b.toNat < a.toNat
        · rw [if_pos hba] at h1
          exact absurd h1 (by decide)
        · rw [if_neg hba] at h1
          by_cases hbc : b.toNat < c.toNat
          · rw [if_pos (by omega : a.toNat < c.toNat)]
          · rw [if_neg hbc] at h2
            by_cases hcb : c.toNat < b.toNat
            · rw [if_pos hcb] at h2
              exact absurd h2 (by decide)
            · rw [if_neg hcb] at h2
              rw [if_neg (by omega : ¬ a.toNat < c.toNat),
                if_neg (by omega : ¬ c.toNat < a.toNat)]
              exact charListLt_trans as bs cs h1 h2

theorem strLtB_antisymm_eq {a b : String} (h1 : strLtB a b = false)
    (h2 : strLtB b a = false) : a = b := by
  obtain ⟨la⟩ := a
  obtain ⟨lb⟩ := b
  exact congrArg String.mk (charListLt_conn la lb h1 h2)

theorem strLtB_le_trans {m p x : String} (h1 : strLtB m p = false)
    (h2 : strLtB p x = false) : strLtB m x = false := by
  by_contra hc
  rw [Bool.not_eq_false] at hc
  by_cases hxp : strLtB x p = true
  · have ht := charListLt_trans m.data x.data p.data hc hxp
    exact absurd ht (by rw [Bool.not_eq_true]; exact h1)
  · have hxp2 : strLtB x p = false := by simpa using hxp
    have hpx : p = x := strLtB_antisymm_eq h2 hxp2
    rw [← hpx] at hc
    exact absurd hc (by rw [Bool.not_eq_true]; exact h1)

theorem foldlMaxStr_mem : ∀ (l : List String) (a : String),
    foldlMaxStr a l = a ∨ foldlMaxStr a l ∈ l := by
  intro l
  induction l with
  | nil => intro a; exact Or.inl rfl
  | cons y ys ih =>
    intro a
    have hstep : foldlMaxStr a (y :: ys)
        = foldlMaxStr (if strLtB a y then y else a) ys := rfl
    rw [hstep]
    by_cases hp : strLtB a y = true
    · rw [if_pos hp]
      rcases ih y with h | h
      · rw [h]; exact Or.inr (List.mem_cons_self y ys)
      · exact Or.inr (List.mem_cons_of_mem y h)
    · rw [if_neg hp]
      rcases ih a with h | h
      · exact Or.inl h
      · exact Or.inr (List.mem_cons_of_mem y h)

theorem foldlMaxStr_mem_cons (a : String) (l : List String) :
    foldlMaxStr a l ∈ a :: l := by
  rcases foldlMaxStr_mem l a with h | h
  · rw [h]; exact List.mem_cons_self a l
  · exact List.mem_cons_of_mem a h

theorem foldlMaxStr_ub : ∀ (l : List String) (a x : String), (x = a ∨ x ∈ l) →
    strLtB (foldlMaxStr a l) x = false := by
  intro l
  induction l with
  | nil =>
    rintro a x (rfl | hx)
    · exact charListLt_irrefl x.data
    · exact absurd hx (List.not_mem_nil x)
  | cons y ys ih =>
    rintro a x hx
    have hstep : foldlMaxStr a (y :: ys)
        = foldlMaxStr (if strLtB a y then y else a) ys := rfl
    rw [hstep]
    have hmaxp : strLtB (foldlMaxStr (if strLtB a y then y else a) ys)
        (if strLtB a y then y else a) = false :=
      ih (if strLtB a y then y else a) (if strLtB a y then y else a) (Or.inl rfl)
    rcases hx with rfl | hx2
    · by_cases hb : strLtB x y = true
      · have hpa : strLtB (if strLtB x y then y else x) x = false := by
          rw [if_pos hb]
          exact charListLt_asymm x.data y.data hb
        exact strLtB_le_trans hmaxp hpa
      · have hpa : strLtB (if strLtB x y then y else x) x = false := by
          rw [if_neg hb]
          exact charListLt_irrefl x.data
        exact strLtB_le_trans hmaxp hpa
    · rcases List.mem_cons.mp hx2 with rfl | hmem
      · by_cases hb : strLtB a x = true
        · have hpa : strLtB (if strLtB a x then x else a) x = false := by
            rw [if_pos hb]
            exact charListLt_irrefl x.data
          exact strLtB_le_trans hmaxp hpa
        · have hb2 : strLtB a x = false := by simpa using hb
          have hpa : strLtB (if strLtB a x then x else a) x = false := by
            rw [if_neg hb]
            exact hb2
          exact strLtB_le_trans hmaxp hpa
      · exact ih (if strLtB a y then y else a) x (Or.inr hmem)

theorem foldlMaxStr_ub_cons (a x : String) (l : List String) (hx : x ∈ a :: l) :
    strLtB (foldlMaxStr a l) x = false := by
  rcases List.mem_cons.mp hx with rfl | h
  · exact foldlMaxStr_ub l x x (Or.inl rfl)
  · exact foldlMaxStr_ub l a x (Or.inr h)

theorem groupByMonth_eq_groupPairs (l : List Enquiry) :
    groupByMonth l = groupPairs (monthPairs l) := by
  suffices hgen : ∀ (t : List Enquiry) (acc : List (String × List Enquiry)),
      t.foldl (fun acc e =>
        match monthKey e with
        | some k => upsApp acc k e
        | none => acc) acc
      = (monthPairs t).foldl (fun a p => upsApp a p.1 p.2) acc by
    exact hgen l []
  intro t
  induction t with
  | nil => intro acc; rfl
  | cons e t2 ih =>
    intro acc
    rw [List.foldl_cons, monthPairs, List.filterMap_cons]
    rcases hk : monthKey e with - | k
    · simp only [hk, Option.map_none']
      exact ih acc
    · simp only [hk, Option.map_some', List.foldl_cons]
      exact ih (upsApp acc k e)

theorem monthPairs_cons (e : Enquiry) (t : List Enquiry) :
    monthPairs (e :: t)
      = (match monthKey e with
         | some k => (k, e) :: monthPairs t
         | none => monthPairs t) := by
  rw [monthPairs, List.filterMap_cons]
  rcases hk : monthKey e with - | k <;>
    simp only [hk, Option.map_none', Option.map_some'] <;> rfl

theorem monthPairs_keys (l : List Enquiry) :
    (monthPairs l).map Prod.fst = l.filterMap monthKey := by
  induction l with
  | nil => rfl
  | cons e t ih =>
    rw [monthPairs_cons, List.filterMap_cons]
    rcases hk : monthKey e with - | k
    · simp only [hk]
      exact ih
    · simp only [hk, List.map_cons]
      rw [ih]

theorem valsFor_monthPairs (l : List Enquiry) (k : String) :
    valsFor k (monthPairs l) = l.filter (fun e => decide (monthKey e = some k)) := by
  induction l with
  | nil => rfl
  | cons e t ih =>
    rw [monthPairs_cons, List.filter_cons]
    rcases hk : monthKey e with - | k0
    · have h3 : decide (monthKey e = some k) = false := by simp [hk]
      simp only [hk, h3, Bool.false_eq_true, if_false]
      exact ih
    · simp only [hk]
      by_cases hkk : k0 = k
      · rw [valsFor_cons_eq k k0 e (monthPairs t) hkk]
        rw [if_pos (by simp [hkk])]
        rw [ih]
      · rw [valsFor_cons_ne k k0 e (monthPairs t) hkk]
        rw [if_neg (by simp [hkk])]
        exact ih

theorem find_keyed_map (f : String → List Enquiry) :
    ∀ (keys : List String) (k : String), k ∈ keys →
      ((keys.map (fun kk => (kk, f kk))).find? (fun p => decide (p.1 = k)))
        = some (k, f k) := by
  intro keys
  induction keys with
  | nil => intro k hk; exact absurd hk (List.not_mem_nil k)
  | cons d ds ih =>
    intro k hk
    rw [List.map_cons]
    by_cases hd : d = k
    · subst hd
      rw [List.find?_cons_of_pos _ (by simp)]
    · rw [List.find?_cons_of_neg _ (by simpa using hd)]
      refine ih k ?_
      rcases List.mem_cons.mp hk with rfl | h
      · exact absurd rfl hd
      · exact h

theorem map_fst_keyed (f : String → List Enquiry) (ds : List String) :
    (ds.map (fun kk => (kk, f kk))).map Prod.fst = ds := by
  induction ds with
  | nil => rfl
  | cons a t ih => rw [List.map_cons, List.map_cons, ih]

theorem filterLatest_of_group (l : List Enquiry) (hlne : ¬ l = [])
    (d : String) (ds : List String) (f : String → List Enquiry)
    (hmd : groupByMonth l = (d :: ds).map (fun kk => (kk, f kk))) :
    filterLatestMonthEnquiries l
      = ((((d :: ds).map (fun kk => (kk, f kk))).find?
          (fun p => decide (p.1 = foldlMaxStr d ds))).map Prod.snd).getD [] := by
  rw [filterLatestMonthEnquiries, if_neg hlne, hmd, List.map_cons]
  show ((((d, f d) :: ds.map (fun kk => (kk, f kk))).find?
      (fun p => decide (p.1 = foldlMaxStr (d, f d).1
        ((ds.map (fun kk => (kk, f kk))).map Prod.fst)))).map Prod.snd).getD []
    = ((((d :: ds).map (fun kk => (kk, f kk))).find?
        (fun p => decide (p.1 = foldlMaxStr d ds))).map Prod.snd).getD []
  rw [map_fst_keyed f ds, List.map_cons]

theorem filterLatest_none (l : List Enquiry) (hk : latestKeyOf l = none) :
    filterLatestMonthEnquiries l = [] := by
  rcases hkeys : l.filterMap monthKey with - | ⟨k0, ks⟩
  · by_cases hl : l = []
    · rw [hl]
      rfl
    · rw [filterLatestMonthEnquiries, if_neg hl]
      have hmp : monthPairs l = [] := by
        have hmk := monthPairs_keys l
        rw [hkeys] at hmk
        exact List.map_eq_nil_iff.mp hmk
      have hmd : groupByMonth l = [] := by
        rw [groupByMonth_eq_groupPairs, hmp]
        rfl
      rw [hmd]
  · simp only [latestKeyOf, hkeys] at hk
    exact absurd hk (by simp)

theorem filterLatest_eq_filter (l : List Enquiry) (k : String)
    (hk : latestKeyOf l = some k) :
    filterLatestMonthEnquiries l
      = l.filter (fun e => decide (monthKey e = some k)) := by
  rcases hkeys : l.filterMap monthKey with - | ⟨k0, ks⟩
  · simp only [latestKeyOf, hkeys] at hk
    exact absurd hk (by simp)
  · simp only [latestKeyOf, hkeys] at hk
    have hkval : foldlMaxStr k0 ks = k := by simpa using hk
    have hlne : ¬ l = [] := by
      intro h0
      rw [h0] at hkeys
      simp at hkeys
    have hmd : groupByMonth l = (firstDedupFrom [] (k0 :: ks)).map
        (fun kk => (kk, valsFor kk (monthPairs l))) := by
      rw [groupByMonth_eq_groupPairs, groupPairs_spec, monthPairs_keys, hkeys]
    rcases hdd : firstDedupFrom [] (k0 :: ks) with - | ⟨d, ds⟩
    · exfalso
      have hm : k0 ∈ firstDedupFrom [] (k0 :: ks) :=
        (mem_firstDedupFrom (k0 :: ks) []).mpr
          ⟨List.mem_cons_self k0 ks, List.not_mem_nil k0⟩
      rw [hdd] at hm
      exact absurd hm (List.not_mem_nil k0)
    · rw [hdd] at hmd
      have hmemiff : ∀ x : String, x ∈ d :: ds ↔ x ∈ k0 :: ks := by
        intro x
        rw [← hdd, mem_firstDedupFrom]
        simp
      have h3 : k ∈ k0 :: ks := by
        rw [← hkval]
        exact foldlMaxStr_mem_cons k0 ks
      have h4 : k ∈ d :: ds := (hmemiff k).mpr h3
      have h2 : foldlMaxStr d ds ∈ k0 :: ks := (hmemiff _).mp (foldlMaxStr_mem_cons d ds)
      have hub1 : strLtB k (foldlMaxStr d ds) = false := by
        rw [← hkval]
        exact foldlMaxStr_ub_cons k0 (foldlMaxStr d ds) ks h2
      have hub2 : strLtB (foldlMaxStr d ds) k = false :=
        foldlMaxStr_ub_cons d k ds h4
      have hmax : foldlMaxStr d ds = k := strLtB_antisymm_eq hub2 hub1
      rw [filterLatest_of_group l hlne d ds (fun kk => valsFor kk (monthPairs l)) hmd]
      rw [hmax, find_keyed_map (fun kk => valsFor kk (monthPairs l)) (d :: ds) k h4]
      simp only [Option.map_some', Option.getD_some]
      exact valsFor_monthPairs l k

theorem latestKeyOf_perm (l l2 : List Enquiry) (hp : l.Perm l2) :
    latestKeyOf l = latestKeyOf l2 := by
  have hpk : (l.filterMap monthKey).Perm (l2.filterMap monthKey) :=
    hp.filterMap monthKey
  rcases h1 : l.filterMap monthKey with - | ⟨k0, ks⟩ <;>
    rcases h2 : l2.filterMap monthKey with - | ⟨k0b, ksb⟩
  · simp [latestKeyOf, h1, h2]
  · rw [h1, h2] at hpk
    exact absurd hpk.symm.eq_nil (by simp)
  · rw [h1, h2] at hpk
    exact absurd hpk.eq_nil (by simp)
  · simp only [latestKeyOf, h1, h2]
    rw [h1, h2] at hpk
    have m1mem : foldlMaxStr k0 ks ∈ k0b :: ksb :=
      hpk.mem_iff.mp (foldlMaxStr_mem_cons k0 ks)
    have m2mem : foldlMaxStr k0b ksb ∈ k0 :: ks :=
      hpk.mem_iff.mpr (foldlMaxStr_mem_cons k0b ksb)
    have hub1 : strLtB (foldlMaxStr k0 ks) (foldlMaxStr k0b ksb) = false :=
      foldlMaxStr_ub_cons k0 (foldlMaxStr k0b ksb) ks m2mem
    have hub2 : strLtB (foldlMaxStr k0b ksb) (foldlMaxStr k0 ks) = false :=
      foldlMaxStr_ub_cons k0b (foldlMaxStr k0 ks) ksb m1mem
    rw [strLtB_antisymm_eq hub1 hub2]

/-- C5: `_filter_latest_month_enquiries` groups the enquiries with a truthy
parsed date by their year-month key, and returns exactly the input enquiries
of the lexicographically maximal (latest) key, in input order — so its count
is the number of input enquiries in that month; with no parsed date the
result is empty; and the selected month is invariant under permutation of the
input.  On a concrete input spanning three months, exactly the two
latest-month enquiries survive. -/
theorem latest_month_enquiry_filter :
    (∀ l : List Enquiry, latestKeyOf l = none → filterLatestMonthEnquiries l = [])
    ∧ (∀ (l : List Enquiry) (k : String), latestKeyOf l = some k →
        filterLatestMonthEnquiries l
          = l.filter (fun e => decide (monthKey e = some k)))
    ∧ (∀ l l2 : List Enquiry, l.Perm l2 → latestKeyOf l = latestKeyOf l2)
    ∧ filterLatestMonthEnquiries
        [⟨"05-01-2024", some "2024-01-05", none, none, "0"⟩,
         ⟨"10-03-2024", some "2024-03-10", none, none, "0"⟩,
         ⟨"01-02-2024", some "2024-02-01", none, none, "0"⟩,
         ⟨"20-03-2024", some "2024-03-20", none, none, "0"⟩]
      = [⟨"10-03-2024", some "2024-03-10", none, none, "0"⟩,
         ⟨"20-03-2024", some "2024-03-20", none, none, "0"⟩] :=
  ⟨filterLatest_none, filterLatest_eq_filter, latestKeyOf_perm, by decide⟩

/-- Witness for C5: the filter applied to a single January enquiry keeps it
(its month is the latest month present). -/
theorem latest_month_enquiry_filter_witness :
    filterLatestMonthEnquiries [⟨"05-01-2024", some "2024-01-05", none, none, "0"⟩]
      = [⟨"05-01-2024", some "2024-01-05", none, none, "0"⟩] := by
  rw [latest_month_enquiry_filter.2.1
    [⟨"05-01-2024", some "2024-01-05", none, none, "0"⟩] "2024-01" (by decide)]
  decide
